import Mathlib

/-!
# Verification of the T.H.E.A. cognitive-agent core

A shallow embedding, in Lean 4, of the core algorithms of the repository:
the cognitive-service task wrapper (`services/base.py`), the orchestrator's
task routing and report delivery (`orchestrator.py`), the memory store's
persistence and concept lookup (`memory/memory_core.py`, `memory/time_store.py`),
the recall ranking pipeline (`services/memory_recall_service.py`) and the
reflection insight-merge cycle (`services/reflection_service.py`).

Python values are modelled as follows: `str` as `String` (or `List Char` in
low-level helpers), `float` as `ℚ` (the algorithms use only +, *, comparisons),
`int` as `Int` or `Nat`, dicts that are iterated as insertion-ordered
association lists, uuid-based fresh node ids as `Nat` ids generated above the
current maximum (only uniqueness of uuids is relied upon).
Python's stable `list.sort` is modelled by a stable insertion sort: stability
plus the comparison key determine the output uniquely, so any stable sort
realizes the same function.
-/

namespace Thea

/-! ## String helpers: Python `str.split(',')` and `str.strip()` on char lists -/

namespace Str

/-- Python's `s.split(",")` on a list of characters: splits at every comma,
returning the (possibly empty) segments between commas. -/
def splitComma : List Char → List (List Char)
  | [] => [[]]
  | c :: cs =>
    if c = ',' then [] :: splitComma cs
    else
      match splitComma cs with
      | [] => [[c]]
      | h :: t => (c :: h) :: t

/-- Python's `str.strip()`: drop leading and trailing whitespace. -/
def stripCL (l : List Char) : List Char :=
  ((l.dropWhile Char.isWhitespace).reverse.dropWhile Char.isWhitespace).reverse

/-- `str.strip()` lifted to `String`. -/
def strip (s : String) : String :=
  String.mk (stripCL s.data)

/-- Python's `<` comparison on strings (lexicographic by code point), in its
non-strict form: the comparison `sorted` is built on. -/
def lexLe : List Char → List Char → Bool
  | [], _ => true
  | _ :: _, [] => false
  | a :: as, b :: bs =>
    if a.toNat < b.toNat then true
    else if b.toNat < a.toNat then false
    else lexLe as bs

/-- `lexLe` on `String`. -/
def strLe (a b : String) : Bool := lexLe a.data b.data

end Str

/-! ## Stable sorts

Python's `list.sort` / `sorted` are stable.  A stable sort is uniquely
determined by the comparison, so we realize it by stable insertion sort:
`insertAsc`/`sortAsc` for `sorted(xs)` (ascending) and `insertDescBy`/
`sortDescBy` for `xs.sort(key=..., reverse=True)` (descending by key). -/

namespace Sorting

variable {α : Type} (le : α → α → Bool)

/-- Insert `x` into an ascending list, before the first element it is `le` to;
the element being inserted comes from earlier in the original list, so placing
it before equal elements preserves stability. -/
def insertAsc (x : α) : List α → List α
  | [] => [x]
  | y :: ys => if le x y then x :: y :: ys else y :: insertAsc x ys

/-- Stable ascending insertion sort (Python `sorted`). -/
def sortAsc : List α → List α
  | [] => []
  | x :: xs => insertAsc le x (sortAsc xs)

variable (key : α → ℚ)

/-- Insert `x` into a list that is descending by `key`: keep an element before
`x` only when its key is strictly greater, so that on ties the earlier element
(`x`) comes first — Python's stable `reverse=True` sort. -/
def insertDescBy (x : α) : List α → List α
  | [] => [x]
  | y :: ys => if key x < key y then y :: insertDescBy x ys else x :: y :: ys

/-- Stable descending-by-key insertion sort (Python `xs.sort(key=…, reverse=True)`). -/
def sortDescBy : List α → List α
  | [] => []
  | x :: xs => insertDescBy key x (sortDescBy xs)

end Sorting

/-! ## events.py: Task and Report messages -/

/-- `events.LinkDirective`: instruction to link a new node to `target_id`. -/
structure LinkDirective where
  target_id : Nat
  label : String
deriving Repr, DecidableEq

/-- `events.Task`.  `payload` is opaque structured data, modelled as a string. -/
structure Task where
  type : String
  payload : String
  correlation_id : String
  task_id : String
  link_to : Option LinkDirective := none
deriving Repr, DecidableEq

/-- `events.Report`.  `data` is a dict, modelled as a key/value list. -/
structure Report where
  status : String
  source_task_type : String
  data : List (String × String)
  correlation_id : String
  source_task_id : String
  link_to : Option LinkDirective := none
  report_node_id : Option Nat := none
deriving Repr, DecidableEq

/-- `utils/reporting.create_report_meta`: the standard report metadata taken
from the source task (`source_task_type`, `correlation_id`, `source_task_id`). -/
def create_report_meta (t : Task) : String × String × String :=
  (t.type, t.correlation_id, t.task_id)

/-! ## services/base.py: the cognitive-service framework (`_process_task_wrapper`) -/

namespace Svc

/-- The three ways `handle_task(task)` can come back to `_process_task_wrapper`:
with a `Report`, with `None`, or by raising an exception carrying `str(e)`. -/
inductive HandlerOutcome where
  | ok (r : Report)
  | noReport
  | exc (msg : String)
deriving Repr, DecidableEq

/-- The FAILURE report synthesized by `_process_task_wrapper` when
`handle_task` returns `None`. -/
def noneFailureReport (task : Task) : Report :=
  { status := "FAILURE"
    source_task_type := task.type
    data := [("error", "Service returned None"),
             ("details", "The service failed to produce a report object after handling the task.")]
    correlation_id := task.correlation_id
    source_task_id := task.task_id }

/-- The FAILURE report synthesized by `_process_task_wrapper` when
`handle_task` raises an exception with text `msg`. -/
def excFailureReport (task : Task) (msg : String) : Report :=
  { status := "FAILURE"
    source_task_type := task.type
    data := [("error", msg),
             ("details", "The service failed to process the task due to an unhandled exception.")]
    correlation_id := task.correlation_id
    source_task_id := task.task_id }

/-- `CognitiveService._process_task_wrapper`: the list of reports passed to
`orchestrator.receive_report` for one dequeued task, as a function of how
`handle_task` came back.  The worker loop spawns this wrapper once per
dequeued task. -/
def process_task_wrapper (task : Task) : HandlerOutcome → List Report
  | .ok r => [r]
  | .noReport => [noneFailureReport task]
  | .exc msg => [excFailureReport task msg]

end Svc

/-! ## services/memory_recall_service.py: the ranking stage (`_rank_candidates`)
    and the truncations performed by `handle_task` -/

namespace Rank

/-- `config.RECALL_RANKING_CONFIG["weights"]` (the deprecated, empty
`node_type_bonus` sub-dict is never read by `_rank_candidates`). -/
def RECALL_RANKING_CONFIG_weights : List (String × ℚ) :=
  [("semantic_similarity_multiplier", 15),
   ("conceptual_intersection_bonus", 10),
   ("associative_chain_bonus", 20),
   ("cross_validation_bonus", 40)]

/-- `config.RECALL_RANKING_CONFIG["recall"]`. -/
def RECALL_RANKING_CONFIG_recall : List (String × Nat) :=
  [("semantic_top_k", 50), ("recall_limit", 30), ("final_top_n", 5)]

/-- `weights.get(key, default)` in `_rank_candidates`. -/
def weightOf (k : String) (dflt : ℚ) : ℚ :=
  (RECALL_RANKING_CONFIG_weights.lookup k).getD dflt

/-- One entry of the candidate pool built by `_build_candidate_pool`:
the node's id and type, and the `found_by` record
(`semantic` similarity, `conceptual` intersection count, `associative` flag).
Node attributes other than `type` do not influence ranking and are omitted. -/
structure PoolEntry where
  id : Nat
  ntype : String
  semantic : ℚ
  conceptual : Nat
  associative : Bool
deriving Repr, DecidableEq

/-- An element of the list returned by `_rank_candidates`: the node data copy
annotated with its `relevance_score`. -/
structure RankedEntry where
  id : Nat
  ntype : String
  relevance_score : ℚ
deriving Repr, DecidableEq

/-- The score accumulation of `_rank_candidates` for one candidate:
`score += semantic * w; score += conceptual * w; if associative: score += w;
if semantic > 0 and conceptual > 0: score += w; if type == "UserImpulse":
score *= 0.7`. -/
def score (p : PoolEntry) : ℚ :=
  let s1 : ℚ := 0 + p.semantic * weightOf "semantic_similarity_multiplier" 15
  let s2 := s1 + (p.conceptual : ℚ) * weightOf "conceptual_intersection_bonus" 10
  let s3 := if p.associative then s2 + weightOf "associative_chain_bonus" 20 else s2
  let s4 := if 0 < p.semantic ∧ 0 < p.conceptual
    then s3 + weightOf "cross_validation_bonus" 40 else s3
  if p.ntype = "UserImpulse" then s4 * (7 / 10) else s4

/-- `_rank_candidates`: score every pool entry, then
`ranked_list.sort(key=relevance_score, reverse=True)` (stable descending). -/
def rank_candidates (pool : List PoolEntry) : List RankedEntry :=
  Sorting.sortDescBy (fun e => e.relevance_score)
    (pool.map fun p => ⟨p.id, p.ntype, score p⟩)

/-- `RECALL_RANKING_CONFIG.get("recall", {}).get("recall_limit", 20)`. -/
def recall_limit : Nat := (RECALL_RANKING_CONFIG_recall.lookup "recall_limit").getD 20

/-- `RECALL_RANKING_CONFIG.get("recall", {}).get("final_top_n", 5)`. -/
def final_top_n : Nat := (RECALL_RANKING_CONFIG_recall.lookup "final_top_n").getD 5

/-- The `found_nodes` list computed by `handle_task` from a candidate pool:
mechanical ranking, truncation to `recall_limit`, the reranker is bypassed,
then truncation to `final_top_n`. -/
def foundNodesFromPool (pool : List PoolEntry) : List RankedEntry :=
  ((rank_candidates pool).take recall_limit).take final_top_n

end Rank

/-! ## orchestrator.py: routing, report delivery and context management -/

namespace Orch

/-- A node of the memory graph as recorded through `record_entry`: its type,
its (string-serialized) content and its extra attributes. -/
structure NodeRec where
  ntype : String
  content : String
  attrs : List (String × String)
deriving Repr, DecidableEq

/-- Serialization of a report's `data` dict into the node `content` string
(stands in for the JSON dump performed by `record_entry`). -/
def serializeData (data : List (String × String)) : String :=
  data.foldr (fun kv acc => kv.1 ++ ":" ++ kv.2 ++ ";" ++ acc) ""

/-- The orchestrator-visible state: the task routing table
(`_task_routing_table`, task type → service name), the keys of the pending
report futures (`_report_futures`), the log of `service.push_task` calls, and
the memory store (schema node types, graph nodes and edges).  Node ids: the
reference uses uuid4 strings, of which only freshness is relied upon; we model
them as naturals generated above the current maximum. -/
structure OrchState where
  routing : List (String × String)
  reportFutures : List String
  pushed : List (String × Task)
  schema : List String
  nodes : List (Nat × NodeRec)
  edges : List (Nat × Nat × String)
deriving Repr, DecidableEq

/-- A fresh node id (`TimeStore.get_new_timestamped_id`: uuid4, modelled by
max-plus-one freshness). -/
def freshId (s : OrchState) : Nat :=
  (s.nodes.map Prod.fst).foldr max 0 + 1

/-- `UniversalMemory.record_entry`: validate the node type against the schema
(returning `None` on failure), write the node, and add an edge for every link
whose target already exists (links with missing targets are skipped). -/
def record_entry (s : OrchState) (ntype content : String)
    (attrs : List (String × String)) (links : List LinkDirective) :
    Option Nat × OrchState :=
  if ntype ∈ s.schema then
    let id := freshId s
    let newEdges := links.filterMap fun l =>
      if (s.nodes.map Prod.fst).contains l.target_id
        then some (id, l.target_id, l.label) else none
    (some id,
     { s with nodes := s.nodes ++ [(id, ⟨ntype, content, attrs⟩)],
              edges := s.edges ++ newEdges })
  else (none, s)

/-- `Orchestrator.submit_task`: look up the routing table by task type; on a
miss log and return `None`; otherwise create a pending future keyed by
`task_id` and push the task to the service.  The returned handle is modelled
by the routed service's name. -/
def submit_task (s : OrchState) (t : Task) : Option String × OrchState :=
  match s.routing.lookup t.type with
  | none => (none, s)
  | some svc =>
    (some svc,
     { s with reportFutures := s.reportFutures ++ [t.task_id],
              pushed := s.pushed ++ [(svc, t)] })

/-- `Orchestrator.execute_single_task`: record the task as a `TaskNode`,
submit it, and either await the report (`resolved` stands for the report the
future is eventually fulfilled with, linked `IS_RESULT_OF` to the task node)
or synthesize a local FAILURE report when no future was created. -/
def execute_single_task (s : OrchState) (t : Task) (resolved : Report) :
    Report × OrchState :=
  let rec0 := record_entry s "TaskNode" t.payload
    [("task_type", t.type), ("task_id", t.task_id),
     ("correlation_id", t.correlation_id)]
    (match t.link_to with | some l => [l] | none => [])
  let sub := submit_task rec0.2 t
  if sub.1.isSome then
    let s3 := match resolved.report_node_id, rec0.1 with
      | some rid, some tid =>
        { sub.2 with edges := sub.2.edges ++ [(rid, tid, "IS_RESULT_OF")] }
      | _, _ => sub.2
    (resolved, s3)
  else
    ({ status := "FAILURE",
       source_task_type := t.type,
       data := [("error", "Failed to create task future.")],
       correlation_id := t.correlation_id,
       source_task_id := t.task_id }, sub.2)

/-- `Orchestrator.receive_report`: record the report as a `ReportNode`,
stamp `report_node_id`, then pop the pending future for `source_task_id` and
fulfill it; a report with no pending future is dropped silently.  Returns the
new state and the report the future was fulfilled with, if any. -/
def receive_report (s : OrchState) (r : Report) : OrchState × Option Report :=
  let rec0 := record_entry s "ReportNode" (serializeData r.data)
    [("service", r.source_task_type), ("status", r.status)] []
  let r1 := { r with report_node_id := rec0.1 }
  if r.source_task_id ∈ rec0.2.reportFutures then
    ({ rec0.2 with reportFutures := rec0.2.reportFutures.erase r.source_task_id },
     some r1)
  else (rec0.2, none)

end Orch

/-! ## orchestrator.py `_manage_context`: token-budget cache management -/

namespace Ctx

/-- One entry of `_conversation_cache`. -/
structure CacheMsg where
  role : String
  content : String
  node_id : Option Nat
deriving Repr, DecidableEq

/-- `config.LLM_CONTEXT_LIMIT`. -/
def LLM_CONTEXT_LIMIT : Nat := 8192

/-- `safe_limit = int(LLM_CONTEXT_LIMIT * 0.7)` (int() truncation of a
positive float = floor). -/
def safe_limit : ℚ := ((⌊(LLM_CONTEXT_LIMIT : ℚ) * (7 / 10)⌋ : ℤ) : ℚ)

/-- `"\n".join(contents)`. -/
def joinLines : List String → String
  | [] => ""
  | [x] => x
  | x :: rest => x ++ "\n" ++ joinLines rest

/-- The tokenizer call: either a token count or a raised
`requests.RequestException` carrying the error text. -/
inductive TokenizerResult where
  | ok (count : Nat)
  | error (msg : String)
deriving Repr, DecidableEq

/-- The FIFO eviction loop of `_manage_context`: while the estimated total
exceeds the safe limit and at least one user/assistant pair remains, pop the
two oldest entries, schedule their background distillation, and subtract
their character-count/3 estimate.  `fuel` bounds the recursion; with
`fuel ≥ cache.length` it is never exhausted. -/
def evictLoop : Nat → ℚ → List CacheMsg → List CacheMsg × List (CacheMsg × CacheMsg)
  | 0, _, cache => (cache, [])
  | fuel + 1, total, cache =>
    match cache with
    | u :: a :: rest =>
      if safe_limit < total then
        let total' := total - ((u.content.length + a.content.length : ℕ) : ℚ) / 3
        let (c', evs) := evictLoop fuel total' rest
        (c', (u, a) :: evs)
      else (cache, [])
    | _ => (cache, [])

/-- `Orchestrator._manage_context`: estimate the new impulse at
`len(text)/3` tokens; join the cache contents and return unchanged when the
joined text strips to empty; call the tokenizer — on `RequestException` log
"aborting cleanup" and return unchanged; otherwise compare
`cache_tokens + impulse_estimate` against the safe limit and run the FIFO
eviction loop when it is exceeded.  Returns the remaining cache and the list
of evicted pairs handed to `_distill_and_archive_pair`. -/
def manage_context (impulse_text : String) (cache : List CacheMsg)
    (tokenizer : TokenizerResult) : List CacheMsg × List (CacheMsg × CacheMsg) :=
  let impulseEstimate : ℚ := (impulse_text.length : ℚ) / 3
  let fullText := joinLines (cache.map (·.content))
  if Str.strip fullText = "" then (cache, [])
  else
    match tokenizer with
    | .error _ => (cache, [])
    | .ok n =>
      let total : ℚ := (n : ℚ) + impulseEstimate
      if total ≤ safe_limit then (cache, [])
      else evictLoop cache.length total cache

end Ctx

/-! ## memory/memory_core.py `save_snapshot` + memory/time_store.py
    `save_chronicle`: persistence and the idempotence of `close()` -/

namespace Persist

/-- A Python attribute value held in a node/edge attribute dict: a string, an
int, a float, a bool, or a non-primitive value (dict/list/…) carried by its
JSON serialization `json.dumps(value, ensure_ascii=False, default=str)`
(the dump is a pure function of the value, so carrying the value by its image
loses nothing the snapshot code looks at). -/
inductive AttrValue where
  | str (s : String)
  | int (n : Int)
  | float (q : ℚ)
  | bool (b : Bool)
  | other (json : String)
deriving Repr, DecidableEq

/-- Python `str(value)` on primitives (the float case stands in for Python's
float repr; only determinism matters here). -/
def pyStr : AttrValue → String
  | .str s => s
  | .int n => toString n
  | .float q => toString q
  | .bool b => if b then "True" else "False"
  | .other j => j

/-- One iteration of the attribute-coercion loop in `save_snapshot`:
`if not isinstance(value, (str, int, float, bool)): json.dumps(value)`
`elif not isinstance(value, str): str(value)`, strings left alone. -/
def coerceValue : AttrValue → AttrValue
  | .str s => .str s
  | .int n => .str (pyStr (.int n))
  | .float q => .str (pyStr (.float q))
  | .bool b => .str (pyStr (.bool b))
  | .other j => .str j

/-- The symbolic graph as `save_snapshot` sees it: insertion-ordered nodes
(id ↦ attribute dict) and edges (source, target, attribute dict). -/
structure Graph where
  nodes : List (String × List (String × AttrValue))
  edges : List (String × String × List (String × AttrValue))
deriving Repr, DecidableEq

def coerceAttrs (attrs : List (String × AttrValue)) : List (String × AttrValue) :=
  attrs.map fun kv => (kv.1, coerceValue kv.2)

/-- The in-place attribute coercion performed by `save_snapshot` over all
nodes and edges before `nx.write_graphml`. -/
def coerceGraph (g : Graph) : Graph :=
  { nodes := g.nodes.map fun n => (n.1, coerceAttrs n.2),
    edges := g.edges.map fun e => (e.1, e.2.1, coerceAttrs e.2.2) }

/-- Deterministic stand-in for the GraphML serialization `nx.write_graphml`
(a pure function of the coerced graph). -/
def writeGraphml (g : Graph) : String :=
  (g.nodes.map fun n =>
      "node " ++ n.1 ++ "[" ++
        String.join (n.2.map fun kv => kv.1 ++ "=" ++ pyStr kv.2 ++ ";") ++ "]").foldr
    (· ++ ·)
  ((g.edges.map fun e =>
      "edge " ++ e.1 ++ ">" ++ e.2.1 ++ "[" ++
        String.join (e.2.2.map fun kv => kv.1 ++ "=" ++ pyStr kv.2 ++ ";") ++ "]").foldr
    (· ++ ·) "")

/-- `TimeStore`: the chronological log, a mapping from ISO timestamp to event
descriptor (node_id, node type). -/
structure TimeStore where
  chronicle : List (String × String × String)
deriving Repr, DecidableEq

/-- `TimeStore.save_chronicle`: JSON dump of the chronicle mapping (a pure
function of the log; no mutation). -/
def save_chronicle (ts : TimeStore) : String :=
  (ts.chronicle.map fun ev =>
      ev.1 ++ "->" ++ ev.2.1 ++ ":" ++ ev.2.2 ++ ",").foldr (· ++ ·) ""

/-- `UniversalMemory` as `close()` sees it: the symbolic graph and the
temporal layer (the vector layer persists itself and is untouched by
`close`). -/
structure UniversalMemory where
  graph : Graph
  time_store : TimeStore
deriving Repr, DecidableEq

/-- `UniversalMemory.save_snapshot`: coerce all attributes in place (the
graph mutation survives the call), then write the GraphML bytes. -/
def save_snapshot (m : UniversalMemory) : UniversalMemory × String :=
  let g' := coerceGraph m.graph
  ({ m with graph := g' }, writeGraphml g')

/-- `UniversalMemory.close()`: `save_snapshot()` then
`time_store.save_chronicle()`; returns the mutated store and the two
persisted byte strings (snapshot, chronicle). -/
def close (m : UniversalMemory) : UniversalMemory × String × String :=
  let (m1, snap) := save_snapshot m
  (m1, snap, save_chronicle m1.time_store)

end Persist

/-! ## memory/memory_core.py: the symbolic knowledge graph, concept lookup
    (`get_node_by_attribute` / `get_or_create_concept_node`), the recall
    capture pipeline and the reflection merge cycle all operate on it -/

namespace KG

/-- A graph node with the attributes these code paths read: `type`,
`content`, and the `source_concepts` / `active_status` / `strength`
attributes of KnowledgeCrystalNodes (absent on other node types; dict
`get` with default is `Option.getD`). -/
structure Node where
  ntype : String
  content : String
  source_concepts : Option String := none
  active_status : Option Int := none
  strength : Option Int := none
deriving Repr, DecidableEq

/-- The symbolic graph: insertion-ordered node dict (id ↦ attributes) and
directed labeled edges (source, target, label).  Node ids are uuid4 strings
in the reference, of which only uniqueness is used; they are modelled as
naturals with fresh ids generated above the current maximum. -/
structure Graph where
  nodes : List (Nat × Node)
  edges : List (Nat × Nat × String)
deriving Repr, DecidableEq

def Graph.ids (g : Graph) : List Nat := g.nodes.map Prod.fst

/-- `graph.has_node`. -/
def Graph.hasNode (g : Graph) (id : Nat) : Bool := g.ids.contains id

/-- `graph.nodes[id]` / `graph.nodes.get(id, {})`. -/
def Graph.find (g : Graph) (id : Nat) : Option Node := g.nodes.lookup id

/-- Fresh node id from `TimeStore.get_new_timestamped_id` (uuid4, modelled by
max-plus-one freshness). -/
def freshId (g : Graph) : Nat := (g.ids.foldr max 0) + 1

/-- `UniversalMemory.record_entry` restricted to the symbolic layer: schema
validation of the node type (`None` on failure, nothing written), node write
with a fresh id, and an edge for every link whose target exists (links with
missing targets are skipped with a warning). -/
def record_entry (schema : List String) (g : Graph) (nd : Node)
    (links : List (Nat × String)) : Option Nat × Graph :=
  if nd.ntype ∈ schema then
    let id := freshId g
    let newEdges := links.filterMap fun l =>
      if g.hasNode l.1 then some (id, l.1, l.2) else none
    (some id, { nodes := g.nodes ++ [(id, nd)], edges := g.edges ++ newEdges })
  else (none, g)

/-- `UniversalMemory.get_node_by_attribute("content", value)`: the first node
in insertion order whose `content` attribute equals the value; the callers
only ever pass `attribute_name = "content"`. -/
def get_node_by_attribute (g : Graph) (value : String) : Option (Nat × Node) :=
  g.nodes.find? fun p => p.2.content == value

/-- `UniversalMemory.get_or_create_concept_node`: look the name up by content;
return the hit's id when it is a ConceptNode, otherwise record a fresh
ConceptNode. -/
def get_or_create_concept_node (schema : List String) (g : Graph)
    (concept_name : String) : Option Nat × Graph :=
  match get_node_by_attribute g concept_name with
  | some (id, nd) =>
    if nd.ntype = "ConceptNode" then (some id, g)
    else record_entry schema g { ntype := "ConceptNode", content := concept_name } []
  | none => record_entry schema g { ntype := "ConceptNode", content := concept_name } []

/-! ### The recall capture pipeline (services/memory_recall_service.py) -/

/-- `config.ALLOWED_NODE_TYPES_FOR_RECALL`. -/
def ALLOWED_NODE_TYPES_FOR_RECALL : List String :=
  ["FactNode", "KnowledgeCrystalNode", "FinalResponseNode", "UserImpulse"]

/-- `graph.predecessors(id)`: sources of the edges pointing at `id`, in edge
insertion order (a networkx DiGraph holds at most one edge per ordered
pair). -/
def predecessors (g : Graph) (id : Nat) : List Nat :=
  (g.edges.filter fun e => e.2.1 == id).map Prod.fst

/-- The per-neighbor update inside `_conceptual_capture`: initialize the
intersection entry at 0 if absent, then increment it. -/
def bumpIntersection (acc : List (Nat × Node × Nat)) (nid : Nat) (nd : Node) :
    List (Nat × Node × Nat) :=
  if (acc.map Prod.fst).contains nid then
    acc.map fun e => if e.1 = nid then (e.1, e.2.1, e.2.2 + 1) else e
  else acc ++ [(nid, nd, 1)]

/-- `MemoryRecallService._conceptual_capture`: for every concept term, find
the ConceptNode by exact content match (skipping terms whose first content
hit is not a ConceptNode), then collect all graph predecessors whose type is
allow-listed, counting one intersection per concept that reaches the node.
Returns the insertion-ordered `candidate_intersections` dict
(id ↦ node data × intersection count). -/
def conceptual_capture (g : Graph) (concepts : List String) :
    List (Nat × Node × Nat) :=
  concepts.foldl
    (fun acc concept_name =>
      match get_node_by_attribute g concept_name with
      | some (cid, cnd) =>
        if cnd.ntype = "ConceptNode" then
          (predecessors g cid).foldl
            (fun acc2 nid =>
              match g.find nid with
              | none => acc2
              | some nd =>
                if nd.ntype ∈ ALLOWED_NODE_TYPES_FOR_RECALL then
                  bumpIntersection acc2 nid nd
                else acc2)
            acc
        else acc
      | none => acc)
    []

/-- `MemoryRecallService._build_candidate_pool`: conceptual entries seed the
pool (semantic 0.0, their intersection count, associative false); semantic
hits then either fill in the semantic score of an existing entry, or join the
pool if their id resolves in the graph to an allow-listed type (missing or
disallowed semantic hits are silently dropped).  `semantic` is the
`dict(zip(ids, scores))` produced by `_semantic_capture` from the vector
store, an external collaborator. -/
def build_candidate_pool (g : Graph) (conceptual : List (Nat × Node × Nat))
    (semantic : List (Nat × ℚ)) : List Rank.PoolEntry :=
  let pool0 : List Rank.PoolEntry :=
    conceptual.map fun c => ⟨c.1, c.2.1.ntype, 0, c.2.2, false⟩
  semantic.foldl
    (fun pool p =>
      if (pool.map Rank.PoolEntry.id).contains p.1 then
        pool.map fun e => if e.id = p.1 then { e with semantic := p.2 } else e
      else
        match g.find p.1 with
        | none => pool
        | some nd =>
          if nd.ntype ∈ ALLOWED_NODE_TYPES_FOR_RECALL then
            pool ++ [⟨p.1, nd.ntype, p.2, 0, false⟩]
          else pool)
    pool0

/-- The `found_nodes` list of a `recall_request` report: empty when both the
query and the concept list are empty, otherwise capture → merge → rank →
truncate.  (The handler's extra `if not candidates_for_rerank: return []`
branch returns the same value the truncation chain yields on an empty
ranking.) -/
def recall_found_nodes (g : Graph) (semantic_query : String)
    (concepts : List String) (semantic : List (Nat × ℚ)) :
    List Rank.RankedEntry :=
  if concepts.isEmpty && semantic_query.isEmpty then []
  else Rank.foundNodesFromPool
    (build_candidate_pool g (conceptual_capture g concepts) semantic)

/-! ### The reflection merge cycle (services/reflection_service.py) -/

/-- The topic of a `source_concepts` string:
`sorted([c.strip() for c in concepts_str.split(",")])`, kept only when the
sorted list has exactly two entries. -/
def parseTopic (s : String) : Option (String × String) :=
  match Sorting.sortAsc Str.strLe
    ((Str.splitComma s.data).map fun cl => String.mk (Str.stripCL cl)) with
  | [a, b] => some (a, b)
  | _ => none

/-- `concepts_str = data.get("source_concepts", ""); if concepts_str:` then
parse — the topic of a crystal node, when it has one. -/
def crystalTopic (nd : Node) : Option (String × String) :=
  match nd.source_concepts with
  | none => none
  | some s => if s = "" then none else parseTopic s

/-- `data.get("type") == "KnowledgeCrystalNode" and
int(data.get("active_status", 0)) == 1`. -/
def isActiveCrystal (nd : Node) : Bool :=
  nd.ntype == "KnowledgeCrystalNode" && nd.active_status.getD 0 == 1

/-- The scan filling `active_insights_by_topic`: every active crystal with a
two-concept topic, tagged by its topic, in graph insertion order. -/
def activeInsightScan (g : Graph) : List ((String × String) × Nat × Node) :=
  g.nodes.filterMap fun p =>
    if isActiveCrystal p.2 then
      match crystalTopic p.2 with
      | some t => some (t, p.1, p.2)
      | none => none
    else none

/-- `defaultdict(list)` grouping by first-seen topic; the fuel argument
(instantiated with the list length) only bounds the recursion. -/
def groupByTopicAux : Nat → List ((String × String) × Nat × Node) →
    List ((String × String) × List (Nat × Node))
  | 0, _ => []
  | _ + 1, [] => []
  | fuel + 1, (t, p) :: rest =>
    (t, p :: ((rest.filter fun q => decide (q.1 = t)).map Prod.snd)) ::
      groupByTopicAux fuel (rest.filter fun q => decide (¬ q.1 = t))

def groupByTopic (l : List ((String × String) × Nat × Node)) :
    List ((String × String) × List (Nat × Node)) :=
  groupByTopicAux l.length l

/-- `topics_to_merge`: the topics with at least two active insights, with
their insight lists, in first-seen order. -/
def topics_to_merge (g : Graph) :
    List ((String × String) × List (Nat × Node)) :=
  (groupByTopic (activeInsightScan g)).filter fun e => decide (2 ≤ e.2.length)

/-- The merged crystal recorded for a topic: `source_concepts` is
`", ".join(topic)`, `active_status` 1, `strength` the given sum. -/
def mergedCrystalNode (t : String × String) (content : String)
    (strength : Int) : Node :=
  { ntype := "KnowledgeCrystalNode", content := content,
    source_concepts := some (t.1 ++ ", " ++ t.2),
    active_status := some 1, strength := some strength }

/-- The attribute write `node["active_status"] = 0`. -/
def deactivateNode (nd : Node) : Node :=
  { nd with active_status := some 0 }

/-- `if graph.has_node(id): graph.nodes[id]["active_status"] = 0`. -/
def setInactive (g : Graph) (id : Nat) : Graph :=
  if g.hasNode id then
    { g with nodes := g.nodes.map fun p =>
        if p.1 = id then (p.1, deactivateNode p.2) else p }
  else g

def deactivateAll (g : Graph) (ids : List Nat) : Graph :=
  ids.foldl setInactive g

/-- One `concept_name in topic` iteration: get-or-create the ConceptNode and,
when an id comes back, add the `INSIGHT_FROM_CONCEPT` edge. -/
def linkConcept (schema : List String) (g : Graph) (fromId : Nat)
    (name : String) : Graph :=
  let rc := get_or_create_concept_node schema g name
  match rc.1 with
  | some cid =>
    { rc.2 with edges := rc.2.edges ++ [(fromId, cid, "INSIGHT_FROM_CONCEPT")] }
  | none => rc.2

/-- One topic merge of `_synthesize_insights_within_clusters`: ask the LLM
for the generalized content (`llm`, an external collaborator, is passed as a
function), record the merged crystal with the summed strength, and — only
when the record succeeded — link it to its two concepts and mark every merged
predecessor inactive. -/
def mergeStep (schema : List String)
    (llm : (String × String) → List (Nat × Node) → String) (g : Graph)
    (entry : (String × String) × List (Nat × Node)) : Graph :=
  let rec0 := record_entry schema g
    (mergedCrystalNode entry.1 (llm entry.1 entry.2)
      ((entry.2.map fun p => p.2.strength.getD 1).sum)) []
  match rec0.1 with
  | none => rec0.2
  | some newId =>
    let g1 := linkConcept schema (linkConcept schema rec0.2 newId entry.1.1)
      newId entry.1.2
    deactivateAll g1 (entry.2.map Prod.fst)

/-- The graph effect of one full
`_synthesize_insights_within_clusters` run. -/
def synthesize_insights_within_clusters (schema : List String)
    (llm : (String × String) → List (Nat × Node) → String) (g : Graph) :
    Graph :=
  (topics_to_merge g).foldl (mergeStep schema llm) g

/-- The active KnowledgeCrystalNodes for one topic, in insertion order. -/
def activeCrystalsFor (g : Graph) (t : String × String) : List (Nat × Node) :=
  g.nodes.filter fun p => isActiveCrystal p.2 && decide (crystalTopic p.2 = some t)

/-- `g'` extends `g` without touching the active crystals of topic `t` or any
node already present. -/
def ExtendsAt (t : String × String) (g g' : Graph) : Prop :=
  activeCrystalsFor g' t = activeCrystalsFor g t ∧
  (∀ j ∈ g.ids, g'.find j = g.find j) ∧
  (∀ j ∈ g.ids, j ∈ g'.ids)

end KG

end Thea

/-! ## Theorems -/

namespace Thea

/-! ### Helper lemmas on the stable sorts -/

namespace Sorting

theorem perm_insertDescBy {α : Type} (key : α → ℚ) (x : α) (l : List α) :
    List.Perm (insertDescBy key x l) (x :: l) := by
  induction l with
  | nil => exact List.Perm.refl _
  | cons y ys ih =>
    by_cases h : key x < key y
    · simp only [insertDescBy, if_pos h]
      exact (ih.cons y).trans (List.Perm.swap x y ys)
    · simp only [insertDescBy, if_neg h]
      exact List.Perm.refl _

theorem perm_sortDescBy {α : Type} (key : α → ℚ) (l : List α) :
    List.Perm (sortDescBy key l) l := by
  induction l with
  | nil => exact List.Perm.refl _
  | cons x xs ih =>
    exact (perm_insertDescBy key x (sortDescBy key xs)).trans (ih.cons x)

theorem pairwise_insertDescBy {α : Type} (key : α → ℚ) (x : α) (l : List α)
    (h : l.Pairwise (fun a b => key b ≤ key a)) :
    (insertDescBy key x l).Pairwise (fun a b => key b ≤ key a) := by
  induction l with
  | nil => simp [insertDescBy]
  | cons y ys ih =>
    rw [List.pairwise_cons] at h
    by_cases hxy : key x < key y
    · simp only [insertDescBy, if_pos hxy]
      rw [List.pairwise_cons]
      constructor
      · intro e he
        have := (perm_insertDescBy key x ys).mem_iff.mp he
        rcases List.mem_cons.mp this with rfl | hy
        · exact le_of_lt hxy
        · exact h.1 e hy
      · exact ih h.2
    · simp only [insertDescBy, if_neg hxy]
      push_neg at hxy
      rw [List.pairwise_cons]
      refine ⟨?_, List.pairwise_cons.mpr h⟩
      intro e he
      rcases List.mem_cons.mp he with rfl | hy
      · exact hxy
      · exact le_trans (h.1 e hy) hxy

theorem pairwise_sortDescBy {α : Type} (key : α → ℚ) (l : List α) :
    (sortDescBy key l).Pairwise (fun a b => key b ≤ key a) := by
  induction l with
  | nil => simp [sortDescBy]
  | cons x xs ih => exact pairwise_insertDescBy key x _ ih

/-- In a list sorted descending by `key`, an element with strictly larger key
sits at a strictly smaller index. -/
theorem sorted_desc_index_lt {α : Type} (key : α → ℚ) {l : List α}
    (hs : l.Pairwise (fun a b => key b ≤ key a)) {i j : Nat} {a b : α}
    (ha : l[i]? = some a) (hb : l[j]? = some b) (hab : key b < key a) : i < j := by
  rcases List.getElem?_eq_some.mp ha with ⟨hi, hia⟩
  rcases List.getElem?_eq_some.mp hb with ⟨hj, hjb⟩
  by_contra hij
  push_neg at hij
  rcases Nat.lt_or_ge j i with hji | hji
  · have := (List.pairwise_iff_getElem.mp hs) j i hj hi hji
    rw [hia, hjb] at this
    exact absurd hab (not_lt.mpr this)
  · have : i = j := Nat.le_antisymm hji hij
    subst this
    rw [hia] at hjb
    subst hjb
    exact lt_irrefl _ hab

end Sorting

/-! ### Helper lemmas on the recall score -/

namespace Rank

/-- The closed form of the `_rank_candidates` score accumulation. -/
theorem score_closed (p : PoolEntry) :
    score p =
      (p.semantic * 15 + (p.conceptual : ℚ) * 10
        + (if p.associative then (20 : ℚ) else 0)
        + (if 0 < p.semantic ∧ 0 < p.conceptual then (40 : ℚ) else 0))
      * (if p.ntype = "UserImpulse" then (7 / 10 : ℚ) else 1) := by
  have w1 : weightOf "semantic_similarity_multiplier" 15 = 15 := by rfl
  have w2 : weightOf "conceptual_intersection_bonus" 10 = 10 := by rfl
  have w3 : weightOf "associative_chain_bonus" 20 = 20 := by rfl
  have w4 : weightOf "cross_validation_bonus" 40 = 40 := by rfl
  simp only [score, w1, w2, w3, w4]
  by_cases hA : p.associative <;>
    by_cases hX : 0 < p.semantic ∧ 0 < p.conceptual <;>
      by_cases hU : p.ntype = "UserImpulse" <;>
        simp [hA, hX, hU] <;> ring

/-- The score is strictly monotone in the semantic similarity when the
conceptual count, the associative flag and the UserImpulse damping agree. -/
theorem score_strict_mono {pA pB : PoolEntry}
    (hc : pA.conceptual = pB.conceptual) (ha : pA.associative = pB.associative)
    (ht : (pA.ntype = "UserImpulse") ↔ (pB.ntype = "UserImpulse"))
    (hs : pB.semantic < pA.semantic) :
    score pB < score pA := by
  rw [score_closed, score_closed, hc, ha]
  have hcross : (if 0 < pB.semantic ∧ 0 < pB.conceptual then (40 : ℚ) else 0) ≤
      (if 0 < pA.semantic ∧ 0 < pB.conceptual then (40 : ℚ) else 0) := by
    by_cases hB : 0 < pB.semantic ∧ 0 < pB.conceptual
    · rw [if_pos hB, if_pos ⟨lt_trans hB.1 hs, hB.2⟩]
    · rw [if_neg hB]
      by_cases hA : 0 < pA.semantic ∧ 0 < pB.conceptual <;> simp [hA]
  have hbase : pB.semantic * 15 + (pB.conceptual : ℚ) * 10
      + (if pB.associative then (20 : ℚ) else 0)
      + (if 0 < pB.semantic ∧ 0 < pB.conceptual then (40 : ℚ) else 0) <
      pA.semantic * 15 + (pB.conceptual : ℚ) * 10
      + (if pB.associative then (20 : ℚ) else 0)
      + (if 0 < pA.semantic ∧ 0 < pB.conceptual then (40 : ℚ) else 0) := by
    have : pB.semantic * 15 < pA.semantic * 15 := by linarith
    linarith
  by_cases hU : pA.ntype = "UserImpulse"
  · rw [if_pos hU, if_pos (ht.mp hU)]
    linarith
  · rw [if_neg hU, if_neg (fun h => hU (ht.mpr h))]
    linarith

/-- The output of `_rank_candidates` is sorted descending by score. -/
theorem rank_candidates_sorted (pool : List PoolEntry) :
    (rank_candidates pool).Pairwise
      (fun a b => b.relevance_score ≤ a.relevance_score) :=
  Sorting.pairwise_sortDescBy _ _

end Rank

/-- C2: `_rank_candidates` scores every pool candidate as
`(semantic*15 + conceptual*10 + (associative ? 20 : 0) +
(semantic>0 ∧ conceptual>0 ? 40 : 0)) * (0.7 when UserImpulse)`, returns them
sorted in descending score order (a permutation of the scored pool), and the
recall handler truncates the ranked list to `recall_limit = 30` and then
returns the first `final_top_n = 5` entries as `found_nodes`. -/
theorem C2_rank_score_and_truncation (pool : List Rank.PoolEntry) :
    (∀ p ∈ pool,
      Rank.score p =
        (p.semantic * 15 + (p.conceptual : ℚ) * 10
          + (if p.associative then (20 : ℚ) else 0)
          + (if 0 < p.semantic ∧ 0 < p.conceptual then (40 : ℚ) else 0))
        * (if p.ntype = "UserImpulse" then (7 / 10 : ℚ) else 1)) ∧
    (Rank.rank_candidates pool).Pairwise
      (fun a b => b.relevance_score ≤ a.relevance_score) ∧
    List.Perm (Rank.rank_candidates pool)
      (pool.map fun p => ⟨p.id, p.ntype, Rank.score p⟩) ∧
    Rank.recall_limit = 30 ∧ Rank.final_top_n = 5 ∧
    Rank.foundNodesFromPool pool = ((Rank.rank_candidates pool).take 30).take 5 := by
  refine ⟨fun p _ => Rank.score_closed p, ?_, ?_, rfl, rfl, rfl⟩
  · exact Sorting.pairwise_sortDescBy _ _
  · exact Sorting.perm_sortDescBy _ _

/-- C2 witness: the scoring formula and the truncation at a concrete pool. -/
theorem C2_rank_score_and_truncation_witness :
    Rank.score ⟨7, "FactNode", 1/2, 2, false⟩ =
      ((1/2 : ℚ) * 15 + (2 : ℚ) * 10 + (if False then (20 : ℚ) else 0)
        + (if (0 : ℚ) < 1/2 ∧ (0 : Nat) < 2 then (40 : ℚ) else 0))
      * (if ("FactNode" : String) = "UserImpulse" then (7 / 10 : ℚ) else 1) ∧
    Rank.foundNodesFromPool [⟨7, "FactNode", 1/2, 2, false⟩] =
      ((Rank.rank_candidates [⟨7, "FactNode", 1/2, 2, false⟩]).take 30).take 5 := by
  constructor
  · have h := (C2_rank_score_and_truncation [⟨7, "FactNode", 1/2, 2, false⟩]).1
      ⟨7, "FactNode", 1/2, 2, false⟩ (by simp)
    simpa using h
  · exact (C2_rank_score_and_truncation [⟨7, "FactNode", 1/2, 2, false⟩]).2.2.2.2.2

/-! ### Helper lemmas on the orchestrator state -/

namespace Orch

/-- `record_entry` only touches the memory layers: routing table, pending
futures, pushed-task log and schema are untouched. -/
theorem record_entry_fields (s : OrchState) (ntype content : String)
    (attrs : List (String × String)) (links : List LinkDirective) :
    (record_entry s ntype content attrs links).2.routing = s.routing ∧
    (record_entry s ntype content attrs links).2.reportFutures = s.reportFutures ∧
    (record_entry s ntype content attrs links).2.pushed = s.pushed ∧
    (record_entry s ntype content attrs links).2.schema = s.schema := by
  unfold record_entry
  split <;> simp

end Orch

/-! ### Helper lemmas on stripping -/

namespace Str

theorem dropWhile_append_singleton_ne_nil (p : Char → Bool) (c : Char)
    (hc : ¬ p c) : ∀ l : List Char, List.dropWhile p (l ++ [c]) ≠ [] := by
  intro l
  induction l with
  | nil => simp [List.dropWhile, hc]
  | cons x xs ih =>
    rw [List.cons_append, List.dropWhile_cons]
    by_cases hx : p x
    · simpa [hx] using ih
    · simp [hx]

/-- A string whose first character is not whitespace does not strip to empty. -/
theorem strip_mk_cons_ne_empty (c : Char) (t : List Char)
    (hc : ¬ c.isWhitespace) : strip (String.mk (c :: t)) ≠ "" := by
  intro h
  have hdata : stripCL (c :: t) = [] := by
    have := String.ext_iff.mp h
    simpa using this
  unfold stripCL at hdata
  rw [List.dropWhile_cons] at hdata
  simp only [hc, Bool.false_eq_true, if_neg, if_false] at hdata
  rw [List.reverse_cons] at hdata
  rw [List.reverse_eq_nil_iff] at hdata
  exact dropWhile_append_singleton_ne_nil Char.isWhitespace c hc t.reverse hdata

theorem splitComma_ne_nil (l : List Char) : splitComma l ≠ [] := by
  cases l with
  | nil => simp [splitComma]
  | cons c cs =>
    unfold splitComma
    split
    · simp
    · split <;> simp

theorem no_comma_of_mem_splitComma :
    ∀ (l part : List Char), part ∈ splitComma l → ',' ∉ part := by
  intro l
  induction l with
  | nil =>
    intro part hp
    simp [splitComma] at hp
    simp [hp]
  | cons c cs ih =>
    intro part hp
    unfold splitComma at hp
    by_cases hc : c = ','
    · rw [if_pos hc] at hp
      rcases List.mem_cons.mp hp with rfl | h2
      · simp
      · exact ih part h2
    · rw [if_neg hc] at hp
      revert hp
      cases hsp : splitComma cs with
      | nil => exact absurd hsp (splitComma_ne_nil cs)
      | cons h0 t0 =>
        intro hp
        rcases List.mem_cons.mp hp with rfl | h2
        · intro hmem
          rcases List.mem_cons.mp hmem with rfl | hmem2
          · exact hc rfl
          · exact ih h0 (hsp ▸ List.mem_cons_self h0 t0) hmem2
        · exact ih part (hsp ▸ List.mem_cons_of_mem h0 h2)

theorem dropWhile_idem (p : Char → Bool) (l : List Char) :
    List.dropWhile p (List.dropWhile p l) = List.dropWhile p l := by
  induction l with
  | nil => rfl
  | cons a l ih =>
    rw [List.dropWhile_cons]
    by_cases ha : p a
    · rw [if_pos ha]; exact ih
    · rw [if_neg ha, List.dropWhile_cons, if_neg ha]

theorem dropWhile_head_false {p : Char → Bool} {l : List Char} {a : Char}
    {y : List Char} (h : List.dropWhile p l = a :: y) : p a = false := by
  induction l with
  | nil => cases h
  | cons x xs ih =>
    rw [List.dropWhile_cons] at h
    by_cases hx : p x
    · rw [if_pos hx] at h; exact ih h
    · rw [if_neg hx] at h
      cases h
      simpa using hx

theorem dropWhile_of_head_false {p : Char → Bool} {l : List Char} {a : Char}
    (hh : l.head? = some a) (ha : p a = false) : List.dropWhile p l = l := by
  cases l with
  | nil => cases hh
  | cons x xs =>
    cases hh
    rw [List.dropWhile_cons]
    simp [ha]

theorem stripCL_idem (l : List Char) : stripCL (stripCL l) = stripCL l := by
  rcases hu : List.dropWhile Char.isWhitespace l with _ | ⟨a, u'⟩
  · have hsl : stripCL l = [] := by
      unfold stripCL
      rw [hu]
      rfl
    rw [hsl]
    rfl
  · have haws : Char.isWhitespace a = false := dropWhile_head_false hu
    rcases hv : List.dropWhile Char.isWhitespace (a :: u').reverse
      with _ | ⟨b, v'⟩
    · have hsl : stripCL l = [] := by
        unfold stripCL
        rw [hu, hv]
        rfl
      rw [hsl]
      rfl
    · have hbws : Char.isWhitespace b = false := dropWhile_head_false hv
      have hsl : stripCL l = (b :: v').reverse := by
        unfold stripCL
        rw [hu, hv]
      have hlast : (b :: v').getLast? = some a := by
        obtain ⟨pre, hpre⟩ := (List.dropWhile_suffix Char.isWhitespace :
          List.dropWhile Char.isWhitespace (a :: u').reverse <:+
            (a :: u').reverse)
        rw [hv] at hpre
        have h2 := List.getLast?_append_of_ne_nil pre
          (show b :: v' ≠ [] by simp)
        rw [hpre, List.getLast?_reverse] at h2
        rw [show (a :: u').head? = some a from rfl] at h2
        exact h2.symm
      have hh : (stripCL l).head? = some a := by
        rw [hsl, List.head?_reverse]
        exact hlast
      show ((List.dropWhile Char.isWhitespace
        (stripCL l)).reverse.dropWhile Char.isWhitespace).reverse = stripCL l
      rw [dropWhile_of_head_false hh haws, hsl, List.reverse_reverse]
      rw [dropWhile_of_head_false (show (b :: v').head? = some b from rfl) hbws]

theorem stripCL_cons_ws {c : Char} (l : List Char)
    (hc : Char.isWhitespace c = true) : stripCL (c :: l) = stripCL l := by
  unfold stripCL
  rw [List.dropWhile_cons, if_pos hc]

theorem mem_of_mem_stripCL {x : Char} {l : List Char}
    (h : x ∈ stripCL l) : x ∈ l := by
  unfold stripCL at h
  rw [List.mem_reverse] at h
  have h1 := (List.dropWhile_suffix Char.isWhitespace).subset h
  rw [List.mem_reverse] at h1
  exact (List.dropWhile_suffix Char.isWhitespace).subset h1

theorem splitComma_append {a : List Char} (hnc : ',' ∉ a) (rest : List Char) :
    splitComma (a ++ ',' :: rest) = a :: splitComma rest := by
  induction a with
  | nil => simp [splitComma]
  | cons c cs ih =>
    have hc : ¬ c = ',' := fun h => hnc (h ▸ List.mem_cons_self c cs)
    have hcs : ',' ∉ cs := fun h => hnc (List.mem_cons_of_mem c h)
    rcases hsp : splitComma (cs ++ ',' :: rest) with _ | ⟨h0, t0⟩
    · exact absurd hsp (splitComma_ne_nil _)
    · have hstep : splitComma (c :: (cs ++ ',' :: rest)) = (c :: h0) :: t0 := by
        unfold splitComma
        rw [if_neg hc, hsp]
      rw [List.cons_append, hstep]
      have h2 := (ih hcs).symm.trans hsp
      cases h2
      rfl

theorem splitComma_no_comma : ∀ {l : List Char}, ',' ∉ l → splitComma l = [l] := by
  intro l
  induction l with
  | nil => intro _; rfl
  | cons c cs ih =>
    intro h
    have hc : ¬ c = ',' := fun hh => h (hh ▸ List.mem_cons_self c cs)
    have hcs : ',' ∉ cs := fun hh => h (List.mem_cons_of_mem c hh)
    unfold splitComma
    rw [if_neg hc, ih hcs]

theorem lexLe_total : ∀ a b : List Char, lexLe a b = false → lexLe b a = true := by
  intro a
  induction a with
  | nil => intro b h; simp [lexLe] at h
  | cons x xs ih =>
    intro b h
    cases b with
    | nil => rfl
    | cons y ys =>
      unfold lexLe at h ⊢
      by_cases hxy : x.toNat < y.toNat
      · rw [if_pos hxy] at h; cases h
      · rw [if_neg hxy] at h
        by_cases hyx : y.toNat < x.toNat
        · rw [if_pos hyx]
        · rw [if_neg hyx] at h
          rw [if_neg hyx, if_neg hxy]
          exact ih ys h

theorem strLe_total (a b : String) (h : strLe a b = false) : strLe b a = true :=
  lexLe_total a.data b.data h

end Str

/-! ### Helper lemmas on the stable ascending sort -/

namespace Sorting

theorem perm_insertAsc {α : Type} (le : α → α → Bool) (x : α) (l : List α) :
    List.Perm (insertAsc le x l) (x :: l) := by
  induction l with
  | nil => exact List.Perm.refl _
  | cons y ys ih =>
    by_cases h : le x y
    · simp only [insertAsc, if_pos h]
      exact List.Perm.refl _
    · simp only [insertAsc, if_neg h]
      exact (ih.cons y).trans (List.Perm.swap x y ys)

theorem perm_sortAsc {α : Type} (le : α → α → Bool) (l : List α) :
    List.Perm (sortAsc le l) l := by
  induction l with
  | nil => exact List.Perm.refl _
  | cons x xs ih =>
    exact (perm_insertAsc le x (sortAsc le xs)).trans (ih.cons x)

theorem chain'_insertAsc {α : Type} (le : α → α → Bool)
    (htot : ∀ a b, le a b = false → le b a = true) (x : α) (l : List α)
    (h : l.Chain' (fun a b => le a b = true)) :
    (insertAsc le x l).Chain' (fun a b => le a b = true) := by
  induction l with
  | nil => simp [insertAsc]
  | cons y ys ih =>
    by_cases hxy : le x y
    · simp only [insertAsc, if_pos hxy]
      exact List.chain'_cons.mpr ⟨hxy, h⟩
    · simp only [insertAsc, if_neg hxy]
      have hyx : le y x = true := htot x y (by simpa using hxy)
      rw [List.chain'_cons']
      refine ⟨?_, ih (List.chain'_cons'.mp h).2⟩
      intro z hz
      cases ys with
      | nil =>
        simp [insertAsc] at hz
        subst hz
        exact hyx
      | cons w ws =>
        by_cases hxw : le x w
        · simp only [insertAsc, if_pos hxw] at hz
          simp at hz
          subst hz
          exact hyx
        · simp only [insertAsc, if_neg hxw] at hz
          simp at hz
          subst hz
          exact (List.chain'_cons.mp h).1

theorem chain'_sortAsc {α : Type} (le : α → α → Bool)
    (htot : ∀ a b, le a b = false → le b a = true) (l : List α) :
    (sortAsc le l).Chain' (fun a b => le a b = true) := by
  induction l with
  | nil => simp [sortAsc]
  | cons x xs ih => exact chain'_insertAsc le htot x _ ih

end Sorting

/-! ### Helper lemmas on topics -/

theorem String.mk_data (s : String) : String.mk s.data = s := by
  cases s
  rfl

namespace KG

theorem parseTopic_props {s : String} {a b : String}
    (h : parseTopic s = some (a, b)) :
    Str.stripCL a.data = a.data ∧ ',' ∉ a.data ∧
    Str.stripCL b.data = b.data ∧ ',' ∉ b.data ∧ Str.strLe a b = true := by
  unfold parseTopic at h
  have hmem : ∀ x : String,
      x ∈ Sorting.sortAsc Str.strLe
        ((Str.splitComma s.data).map fun cl => String.mk (Str.stripCL cl)) →
      Str.stripCL x.data = x.data ∧ ',' ∉ x.data := by
    intro x hx
    have hx2 := (Sorting.perm_sortAsc Str.strLe _).subset hx
    rcases List.mem_map.mp hx2 with ⟨cl, hcl, rfl⟩
    have hdata : (String.mk (Str.stripCL cl)).data = Str.stripCL cl := rfl
    refine ⟨?_, ?_⟩
    · rw [hdata, Str.stripCL_idem]
    · rw [hdata]
      intro hc
      exact Str.no_comma_of_mem_splitComma s.data cl hcl
        (Str.mem_of_mem_stripCL hc)
  have hchain := Sorting.chain'_sortAsc Str.strLe
    (fun x y => Str.strLe_total x y)
    ((Str.splitComma s.data).map fun cl => String.mk (Str.stripCL cl))
  rcases hs : Sorting.sortAsc Str.strLe
      ((Str.splitComma s.data).map fun cl => String.mk (Str.stripCL cl))
    with _ | ⟨x, _ | ⟨y, _ | ⟨z, rest⟩⟩⟩
  · rw [hs] at h; simp at h
  · rw [hs] at h; simp at h
  · rw [hs] at h
    simp at h
    rcases h with ⟨h1, h2⟩
    subst h1
    subst h2
    have hxm := hmem x (by rw [hs]; exact List.mem_cons_self _ _)
    have hym := hmem y (by
      rw [hs]; exact List.mem_cons_of_mem _ (List.mem_cons_self _ _))
    have hch : Str.strLe x y = true := by
      rw [hs] at hchain
      rw [List.chain'_pair] at hchain
      exact hchain
    exact ⟨hxm.1, hxm.2, hym.1, hym.2, hch⟩
  · rw [hs] at h; simp at h

theorem join_data (a b : String) :
    (a ++ ", " ++ b).data = a.data ++ ',' :: ' ' :: b.data := by
  rw [String.data_append, String.data_append]
  rw [show (", " : String).data = [',', ' '] from rfl]
  simp

theorem join_ne_empty (a b : String) : a ++ ", " ++ b ≠ "" := by
  intro h
  have := String.ext_iff.mp h
  rw [join_data] at this
  simp at this

theorem parseTopic_join {a b : String}
    (ha1 : Str.stripCL a.data = a.data) (ha2 : ',' ∉ a.data)
    (hb1 : Str.stripCL b.data = b.data) (hb2 : ',' ∉ b.data)
    (hle : Str.strLe a b = true) :
    parseTopic (a ++ ", " ++ b) = some (a, b) := by
  unfold parseTopic
  rw [join_data]
  rw [Str.splitComma_append ha2]
  rw [Str.splitComma_no_comma (show ',' ∉ ' ' :: b.data from by
    intro hc
    rcases List.mem_cons.mp hc with h1 | h2
    · cases h1
    · exact hb2 h2)]
  simp only [List.map]
  rw [ha1, Str.stripCL_cons_ws b.data (by decide), hb1]
  rw [String.mk_data, String.mk_data]
  simp [Sorting.sortAsc, Sorting.insertAsc, hle]

theorem crystalTopic_merged (t : String × String) (c : String) (st : Int)
    (h : parseTopic (t.1 ++ ", " ++ t.2) = some t) :
    crystalTopic (mergedCrystalNode t c st) = some t := by
  unfold crystalTopic mergedCrystalNode
  simp only []
  rw [if_neg (join_ne_empty t.1 t.2)]
  exact h

/-- Any topic produced by `crystalTopic` survives the `", ".join` →
re-parse roundtrip of the merged node's `source_concepts`. -/
theorem roundtrip_of_crystalTopic {nd : Node} {t : String × String}
    (h : crystalTopic nd = some t) :
    parseTopic (t.1 ++ ", " ++ t.2) = some t := by
  unfold crystalTopic at h
  rcases hs : nd.source_concepts with _ | s
  · rw [hs] at h; cases h
  · rw [hs] at h
    have h' : (if s = "" then none else parseTopic s) = some t := h
    by_cases he : s = ""
    · rw [if_pos he] at h'; cases h'
    · rw [if_neg he] at h'
      rcases t with ⟨a, b⟩
      have hp := parseTopic_props h'
      exact parseTopic_join hp.1 hp.2.1 hp.2.2.1 hp.2.2.2.1 hp.2.2.2.2

/-- Membership in `activeCrystalsFor` unpacked. -/
theorem mem_activeCrystalsFor {g : Graph} {t : String × String}
    {p : Nat × Node} (h : p ∈ activeCrystalsFor g t) :
    p ∈ g.nodes ∧ isActiveCrystal p.2 = true ∧ crystalTopic p.2 = some t := by
  unfold activeCrystalsFor at h
  have h1 := List.mem_filter.mp h
  have h2 := h1.2
  rw [Bool.and_eq_true] at h2
  refine ⟨h1.1, h2.1, ?_⟩
  have := h2.2
  simpa using this

/-- `lookup` of a keyed entry in a nodup-keyed association list. -/
theorem lookup_of_mem_nodup {α : Type} [DecidableEq α] {β : Type}
    {l : List (α × β)} (hnodup : (l.map Prod.fst).Nodup) {k : α} {v : β}
    (h : (k, v) ∈ l) : l.lookup k = some v := by
  induction l with
  | nil => cases h
  | cons kv rest ih =>
    rcases kv with ⟨k', v'⟩
    simp only [List.map_cons] at hnodup
    rcases List.mem_cons.mp h with heq | h2
    · cases heq
      simp [List.lookup]
    · have hk : k ≠ k' := by
        intro hkk
        apply (List.nodup_cons.mp hnodup).1
        exact List.mem_map.mpr ⟨(k, v), h2, by rw [hkk]⟩
      have hbeq : (k == k') = false := beq_eq_false_iff_ne.mpr hk
      simp [List.lookup, hbeq]
      exact ih (List.nodup_cons.mp hnodup).2 h2

/-- In a graph with nodup ids, an active crystal's entry is what `find`
returns. -/
theorem act_find {g : Graph} (hnodup : g.ids.Nodup) {t : String × String}
    {p : Nat × Node} (h : p ∈ activeCrystalsFor g t) :
    g.find p.1 = some p.2 := by
  have hm := (mem_activeCrystalsFor h).1
  unfold Graph.find
  exact lookup_of_mem_nodup hnodup (by rcases p with ⟨i, nd⟩; exact hm)

/-- Active crystals of different topics occupy different node ids. -/
theorem act_keys_disjoint {g : Graph} (hnodup : g.ids.Nodup)
    {t1 t2 : String × String} (hne : t1 ≠ t2) {p q : Nat × Node}
    (hp : p ∈ activeCrystalsFor g t1) (hq : q ∈ activeCrystalsFor g t2) :
    p.1 ≠ q.1 := by
  intro heq
  have h1 := act_find hnodup hp
  have h2 := act_find hnodup hq
  rw [heq, h2] at h1
  have hpq : q.2 = p.2 := Option.some_inj.mp h1
  apply hne
  have ht1 := (mem_activeCrystalsFor hp).2.2
  have ht2 := (mem_activeCrystalsFor hq).2.2
  rw [hpq, ht1] at ht2
  exact Option.some_inj.mp ht2

/-- `activeCrystalsFor` as a filter of the reflection scan. -/
theorem activeCrystalsFor_eq_scan (g : Graph) (t : String × String) :
    activeCrystalsFor g t =
      ((activeInsightScan g).filter fun q => decide (q.1 = t)).map Prod.snd := by
  unfold activeCrystalsFor activeInsightScan
  induction g.nodes with
  | nil => rfl
  | cons p rest ih =>
    by_cases hA : isActiveCrystal p.2
    · rcases hT : crystalTopic p.2 with _ | t0
      · simp [List.filterMap_cons, List.filter_cons, hA, hT, ih]
      · by_cases het : t0 = t
        · subst het
          simp [List.filterMap_cons, List.filter_cons, hA, hT, ih]
        · simp [List.filterMap_cons, List.filter_cons, hA, hT, het, ih]
    · have hA' : isActiveCrystal p.2 = false := by simpa using hA
      simp [List.filterMap_cons, List.filter_cons, hA', ih]

/-- Full characterization of the insertion-order grouping: nodup keys, each
group is the filter of the input by its key, and the keys are exactly the
input keys. -/
theorem groupByTopicAux_spec :
    ∀ (fuel : Nat) (l : List ((String × String) × Nat × Node)),
      l.length ≤ fuel →
      ((groupByTopicAux fuel l).map Prod.fst).Nodup ∧
      (∀ e ∈ groupByTopicAux fuel l,
        e.2 = (l.filter fun q => decide (q.1 = e.1)).map Prod.snd) ∧
      (∀ t : String × String,
        (∃ e ∈ groupByTopicAux fuel l, e.1 = t) ↔ ∃ q ∈ l, q.1 = t) := by
  intro fuel
  induction fuel with
  | zero =>
    intro l hl
    have : l = [] := List.length_eq_zero.mp (Nat.le_zero.mp hl)
    subst this
    refine ⟨by simp [groupByTopicAux], by simp [groupByTopicAux], ?_⟩
    intro t
    simp [groupByTopicAux]
  | succ fuel ih =>
    intro l hl
    cases l with
    | nil =>
      refine ⟨by simp [groupByTopicAux], by simp [groupByTopicAux], ?_⟩
      intro t
      simp [groupByTopicAux]
    | cons hd rest =>
      rcases hd with ⟨t0, p⟩
      have hlen : (rest.filter fun q => decide (¬ q.1 = t0)).length ≤ fuel := by
        calc (rest.filter fun q => decide (¬ q.1 = t0)).length
            ≤ rest.length := List.length_filter_le _ _
          _ ≤ fuel := by
              have := hl
              simp only [List.length_cons] at this
              omega
      obtain ⟨ihn, ihg, ihk⟩ := ih _ hlen
      have hkeys_ne : ∀ e ∈ groupByTopicAux fuel
          (rest.filter fun q => decide (¬ q.1 = t0)), e.1 ≠ t0 := by
        intro e he
        have : ∃ q ∈ rest.filter fun q => decide (¬ q.1 = t0), q.1 = e.1 :=
          (ihk e.1).mp ⟨e, he, rfl⟩
        rcases this with ⟨q, hq, hq1⟩
        have := (List.mem_filter.mp hq).2
        rw [← hq1]
        simpa using this
      have hstep : groupByTopicAux (fuel + 1) ((t0, p) :: rest) =
          (t0, p :: ((rest.filter fun q => decide (q.1 = t0)).map Prod.snd)) ::
            groupByTopicAux fuel (rest.filter fun q => decide (¬ q.1 = t0)) :=
        rfl
      rw [hstep]
      refine ⟨?_, ?_, ?_⟩
      · rw [List.map_cons, List.nodup_cons]
        constructor
        · intro hmem
          rcases List.mem_map.mp hmem with ⟨e, he, he1⟩
          exact hkeys_ne e he he1
        · exact ihn
      · intro e he
        rcases List.mem_cons.mp he with heq | h2
        · rw [heq]
          rw [List.filter_cons]
          simp
        · have hne := hkeys_ne e h2
          rw [ihg e h2]
          rw [List.filter_cons]
          rw [show (decide (((t0, p) : (String × String) × Nat × Node).1 =
            e.1)) = false from by
              simp only [decide_eq_false_iff_not]
              exact fun h => hne h.symm]
          simp only [Bool.false_eq_true, if_false]
          rw [List.filter_filter]
          congr 1
          apply List.filter_congr
          intro q _
          by_cases hq : q.1 = e.1
          · have hq0 : ¬ q.1 = t0 := fun h => hne (by rw [← hq, h])
            simp [hq, hq0, hne]
          · simp [hq]
      · intro t
        constructor
        · rintro ⟨e, he, het⟩
          rcases List.mem_cons.mp he with heq | h2
          · refine ⟨(t0, p), List.mem_cons_self _ _, ?_⟩
            have : e.1 = t0 := by rw [heq]
            rw [← het, this]
          · rcases (ihk e.1).mp ⟨e, h2, rfl⟩ with ⟨q, hq, hq1⟩
            exact ⟨q, List.mem_cons_of_mem _ (List.mem_filter.mp hq).1,
              by rw [hq1, het]⟩
        · rintro ⟨q, hq, hqt⟩
          rcases List.mem_cons.mp hq with heq | h2
          · refine ⟨(t0, p :: ((rest.filter fun r =>
              decide (r.1 = t0)).map Prod.snd)), List.mem_cons_self _ _, ?_⟩
            have : q.1 = t0 := by rw [heq]
            rw [← hqt, this]
          · by_cases hqt0 : q.1 = t0
            · refine ⟨(t0, p :: ((rest.filter fun r =>
                decide (r.1 = t0)).map Prod.snd)), List.mem_cons_self _ _, ?_⟩
              rw [← hqt, hqt0]
            · have hqmem : q ∈ rest.filter fun r => decide (¬ r.1 = t0) :=
                List.mem_filter.mpr ⟨h2, by simpa using hqt0⟩
              rcases (ihk q.1).mpr ⟨q, hqmem, rfl⟩ with ⟨e, he, he1⟩
              exact ⟨e, List.mem_cons_of_mem _ he, by rw [he1, hqt]⟩

/-- `topics_to_merge` spec: nodup topics; every entry is
`(t, activeCrystalsFor g t)` with at least two insights; and every topic with
at least two active crystals has its entry. -/
theorem topics_to_merge_spec (g : Graph) :
    ((topics_to_merge g).map Prod.fst).Nodup ∧
    (∀ e ∈ topics_to_merge g,
      e.2 = activeCrystalsFor g e.1 ∧ 2 ≤ e.2.length) ∧
    (∀ t : String × String, 2 ≤ (activeCrystalsFor g t).length →
      (t, activeCrystalsFor g t) ∈ topics_to_merge g) := by
  obtain ⟨hn, hg, hk⟩ := groupByTopicAux_spec (activeInsightScan g).length
    (activeInsightScan g) le_rfl
  refine ⟨?_, ?_, ?_⟩
  · unfold topics_to_merge groupByTopic
    have hsub : ((groupByTopicAux (activeInsightScan g).length
        (activeInsightScan g)).filter fun e => decide (2 ≤ e.2.length)).Sublist
        (groupByTopicAux (activeInsightScan g).length (activeInsightScan g)) :=
      List.filter_sublist _
    exact hn.sublist (hsub.map Prod.fst)
  · intro e he
    unfold topics_to_merge groupByTopic at he
    have h1 := List.mem_filter.mp he
    have h2 := hg e h1.1
    constructor
    · rw [h2, activeCrystalsFor_eq_scan]
    · simpa using h1.2
  · intro t hlen
    unfold topics_to_merge groupByTopic
    have hact := activeCrystalsFor_eq_scan g t
    have hne : activeCrystalsFor g t ≠ [] := by
      intro h
      rw [h] at hlen
      simp at hlen
    have hfil_ne : (activeInsightScan g).filter
        (fun q => decide (q.1 = t)) ≠ [] := by
      intro h
      apply hne
      rw [hact, h]
      rfl
    have hscan : ∃ q ∈ activeInsightScan g, q.1 = t := by
      rcases List.exists_mem_of_ne_nil _ hfil_ne with ⟨x, hx⟩
      rcases List.mem_filter.mp hx with ⟨hx1, hx2⟩
      exact ⟨x, hx1, of_decide_eq_true hx2⟩
    rcases (hk t).mpr hscan with ⟨e, he, he1⟩
    have h2 := hg e he
    have he2 : e = (t, activeCrystalsFor g t) := by
      have h22 : e.2 = activeCrystalsFor g t := by
        rw [h2, he1, activeCrystalsFor_eq_scan]
      exact Prod.ext he1 h22
    rw [← he2]
    apply List.mem_filter.mpr
    refine ⟨he, ?_⟩
    rw [he2]
    simpa using hlen

/-! #### Elementary graph-operation lemmas -/

theorem le_foldr_max : ∀ (l : List Nat), ∀ x ∈ l, x ≤ l.foldr max 0 := by
  intro l
  induction l with
  | nil => intro x hx; cases hx
  | cons a l ih =>
    intro x hx
    rcases List.mem_cons.mp hx with rfl | h2
    · exact Nat.le_max_left _ _
    · exact le_trans (ih x h2) (Nat.le_max_right _ _)

theorem freshId_not_mem (g : Graph) : freshId g ∉ g.ids := by
  intro h
  have := le_foldr_max g.ids (freshId g) h
  unfold freshId at this
  omega

theorem lookup_cons_self {β : Type} {j : Nat} {w : β} {l : List (Nat × β)} :
    List.lookup j ((j, w) :: l) = some w := by
  simp [List.lookup]

theorem lookup_cons_ne {β : Type} {j k : Nat} (hb : (j == k) = false)
    {w : β} {l : List (Nat × β)} :
    List.lookup j ((k, w) :: l) = List.lookup j l := by
  simp [List.lookup, hb]

theorem lookup_append_left {β : Type} {ns : List (Nat × β)} {j : Nat} {v : β}
    (h : ns.lookup j = some v) (l' : List (Nat × β)) :
    (ns ++ l').lookup j = some v := by
  induction ns with
  | nil => cases h
  | cons kv rest ih =>
    rcases kv with ⟨k, w⟩
    rw [List.cons_append]
    by_cases hj : j = k
    · subst hj
      rw [lookup_cons_self] at h ⊢
      exact h
    · have hb : (j == k) = false := by simpa using hj
      rw [lookup_cons_ne hb] at h ⊢
      exact ih h

theorem lookup_some_of_mem_keys {β : Type} {ns : List (Nat × β)} {j : Nat}
    (h : j ∈ ns.map Prod.fst) : ∃ v, ns.lookup j = some v := by
  induction ns with
  | nil => cases h
  | cons kv rest ih =>
    rcases kv with ⟨k, w⟩
    by_cases hj : j = k
    · subst hj
      exact ⟨w, lookup_cons_self⟩
    · have h2 : j ∈ rest.map Prod.fst := by
        rcases List.mem_cons.mp h with h1 | h1
        · exact absurd h1 hj
        · exact h1
      rcases ih h2 with ⟨v, hv⟩
      have hb : (j == k) = false := by simpa using hj
      exact ⟨v, by rw [lookup_cons_ne hb]; exact hv⟩

theorem mem_keys_of_lookup_some {β : Type} {ns : List (Nat × β)} {j : Nat}
    {v : β} (h : ns.lookup j = some v) : j ∈ ns.map Prod.fst := by
  induction ns with
  | nil => cases h
  | cons kv rest ih =>
    rcases kv with ⟨k, w⟩
    by_cases hj : j = k
    · subst hj
      simp
    · have hb : (j == k) = false := by simpa using hj
      rw [lookup_cons_ne hb] at h
      rw [List.map_cons]
      exact List.mem_cons_of_mem _ (ih h)

/-- `find` is unchanged by appending a node, at ids already present. -/
theorem find_append {g : Graph} {j : Nat} (h : j ∈ g.ids)
    (entry : Nat × Node) (es : List (Nat × Nat × String)) :
    (Graph.mk (g.nodes ++ [entry]) es).find j = g.find j := by
  rcases lookup_some_of_mem_keys h with ⟨v, hv⟩
  unfold Graph.find
  show (g.nodes ++ [entry]).lookup j = g.nodes.lookup j
  rw [hv]
  exact lookup_append_left hv [entry]

/-- An inactive copy of any node is not an active crystal. -/
theorem isActiveCrystal_inactive (nd : Node) :
    isActiveCrystal (deactivateNode nd) = false := by
  unfold isActiveCrystal deactivateNode
  simp

/-- Deactivating does not change the stored topic. -/
theorem crystalTopic_inactive (nd : Node) :
    crystalTopic (deactivateNode nd) = crystalTopic nd := by
  unfold crystalTopic deactivateNode
  rfl

/-- `setInactive` keeps the id list. -/
theorem setInactive_ids (g : Graph) (id : Nat) :
    (setInactive g id).ids = g.ids := by
  unfold setInactive
  split
  · show (g.nodes.map _).map Prod.fst = _
    rw [List.map_map]
    apply List.map_congr_left
    intro p _
    by_cases hp : p.1 = id <;> simp [hp, Function.comp]
  · rfl

theorem lookup_map_ite (ns : List (Nat × Node)) (id : Nat) (f : Node → Node) :
    ∀ j, (ns.map fun p => if p.1 = id then (p.1, f p.2) else p).lookup j =
      if j = id then (ns.lookup j).map f else ns.lookup j := by
  intro j
  induction ns with
  | nil => by_cases hj : j = id <;> simp [List.lookup, hj]
  | cons kv rest ih =>
    rcases kv with ⟨k, v⟩
    rw [List.map_cons]
    by_cases hk : k = id
    · rw [show (if ((k, v) : Nat × Node).1 = id then (k, f v) else (k, v)) =
        (k, f v) from by rw [if_pos hk]]
      by_cases hj : j = k
      · subst hj
        rw [lookup_cons_self, lookup_cons_self, if_pos hk]
        rfl
      · have hb : (j == k) = false := by simpa using hj
        rw [lookup_cons_ne hb, lookup_cons_ne hb]
        exact ih
    · rw [show (if ((k, v) : Nat × Node).1 = id then (k, f v) else (k, v)) =
        (k, v) from by rw [if_neg hk]]
      by_cases hj : j = k
      · subst hj
        rw [lookup_cons_self, lookup_cons_self, if_neg hk]
      · have hb : (j == k) = false := by simpa using hj
        rw [lookup_cons_ne hb, lookup_cons_ne hb]
        exact ih

/-- `setInactive` at `id` maps `find` there through deactivation and leaves
other ids alone. -/
theorem setInactive_find (g : Graph) (id : Nat) (j : Nat) :
    (setInactive g id).find j =
      if j = id then (g.find j).map deactivateNode
      else g.find j := by
  unfold setInactive
  by_cases hg : g.hasNode id
  · rw [if_pos hg]
    show (g.nodes.map _).lookup j = _
    exact lookup_map_ite g.nodes id _ j
  · rw [if_neg hg]
    by_cases hj : j = id
    · subst hj
      have hnone : g.find j = none := by
        rcases hfind : g.find j with _ | v
        · rfl
        · exfalso
          apply hg
          unfold Graph.hasNode
          rw [List.contains_iff_exists_mem_beq]
          exact ⟨j, mem_keys_of_lookup_some hfind, by simp⟩
      rw [if_pos rfl, hnone]
      rfl
    · rw [if_neg hj]

/-- `setInactive` restricts the active-crystal list by the deactivated id. -/
theorem setInactive_act (g : Graph) (id : Nat) (t : String × String) :
    activeCrystalsFor (setInactive g id) t =
      (activeCrystalsFor g t).filter fun p => decide (¬ p.1 = id) := by
  unfold setInactive
  by_cases hg : g.hasNode id
  · rw [if_pos hg]
    show (g.nodes.map _).filter _ = _
    unfold activeCrystalsFor
    induction g.nodes with
    | nil => rfl
    | cons kv rest ih =>
      rcases kv with ⟨k, v⟩
      by_cases hk : k = id
      · subst hk
        rw [List.map_cons]
        rw [show (if ((k, v) : Nat × Node).1 = k then
            (((k, v) : Nat × Node).1, deactivateNode ((k, v) : Nat × Node).2)
          else (k, v)) = (k, deactivateNode v) from if_pos rfl]
        rw [List.filter_cons]
        rw [show (isActiveCrystal ((k, deactivateNode v) : Nat × Node).2 &&
          decide (crystalTopic ((k, deactivateNode v) : Nat × Node).2 = some t))
          = false from by
            show (isActiveCrystal (deactivateNode v) &&
              decide (crystalTopic (deactivateNode v) = some t)) = false
            rw [isActiveCrystal_inactive]
            rfl]
        simp only [Bool.false_eq_true, if_false]
        rw [List.filter_cons]
        by_cases hv : (isActiveCrystal v && decide (crystalTopic v = some t))
        · rw [if_pos hv, List.filter_cons]
          rw [show (decide (¬ ((k, v) : Nat × Node).1 = k)) = false from by simp]
          simp only [Bool.false_eq_true, if_false]
          exact ih
        · rw [if_neg hv]
          exact ih
      · rw [List.map_cons]
        rw [show (if ((k, v) : Nat × Node).1 = id then
            (((k, v) : Nat × Node).1, deactivateNode ((k, v) : Nat × Node).2)
          else (k, v)) = (k, v) from if_neg hk]
        rw [List.filter_cons, List.filter_cons]
        by_cases hv : (isActiveCrystal v && decide (crystalTopic v = some t))
        · rw [if_pos hv, if_pos hv, List.filter_cons]
          rw [show (decide (¬ ((k, v) : Nat × Node).1 = id)) = true from by
            simp [hk]]
          simp only [if_true]
          rw [ih]
        · rw [if_neg hv, if_neg hv]
          exact ih
  · rw [if_neg hg]
    have hid : ∀ p ∈ activeCrystalsFor g t, decide (¬ p.1 = id) = true := by
      intro p hp
      have hm := (mem_activeCrystalsFor hp).1
      simp only [decide_eq_true_eq]
      intro hpid
      apply hg
      unfold Graph.hasNode
      rw [List.contains_iff_exists_mem_beq]
      exact ⟨p.1, List.mem_map.mpr ⟨p, hm, rfl⟩, by simp [hpid]⟩
    rw [List.filter_eq_self.mpr hid]

theorem act_append (g : Graph) (t : String × String) (entry : Nat × Node)
    (es : List (Nat × Nat × String)) :
    activeCrystalsFor (Graph.mk (g.nodes ++ [entry]) es) t =
      activeCrystalsFor g t ++
        (if isActiveCrystal entry.2 && decide (crystalTopic entry.2 = some t)
          then [entry] else []) := by
  unfold activeCrystalsFor
  rw [List.filter_append]
  congr 1
  rw [List.filter_cons]
  by_cases h : (isActiveCrystal entry.2 &&
      decide (crystalTopic entry.2 = some t)) = true
  · rw [if_pos h, if_pos h]
    rfl
  · rw [if_neg h, if_neg h]
    rfl

theorem ids_append (g : Graph) (entry : Nat × Node)
    (es : List (Nat × Nat × String)) :
    (Graph.mk (g.nodes ++ [entry]) es).ids = g.ids ++ [entry.1] := by
  unfold Graph.ids
  simp

theorem deactivateAll_ids (L : List Nat) :
    ∀ g : Graph, (deactivateAll g L).ids = g.ids := by
  induction L with
  | nil => intro g; rfl
  | cons i L' ih =>
    intro g
    show (deactivateAll (setInactive g i) L').ids = g.ids
    rw [ih (setInactive g i), setInactive_ids]

theorem deactivateAll_act (L : List Nat) (t : String × String) :
    ∀ g : Graph, activeCrystalsFor (deactivateAll g L) t =
      (activeCrystalsFor g t).filter fun p => decide (¬ p.1 ∈ L) := by
  induction L with
  | nil =>
    intro g
    show activeCrystalsFor g t = _
    symm
    apply List.filter_eq_self.mpr
    intro p _
    simp
  | cons i L' ih =>
    intro g
    show activeCrystalsFor (deactivateAll (setInactive g i) L') t = _
    rw [ih (setInactive g i), setInactive_act]
    rw [List.filter_filter]
    apply List.filter_congr
    intro p _
    by_cases h1 : p.1 = i <;> by_cases h2 : p.1 ∈ L' <;>
      simp [h1, h2, List.mem_cons]

theorem deactivateNode_idem (nd : Node) :
    deactivateNode (deactivateNode nd) = deactivateNode nd := rfl

theorem deactivateAll_find (L : List Nat) (j : Nat) :
    ∀ g : Graph,
      (j ∉ L → (deactivateAll g L).find j = g.find j) ∧
      (j ∈ L → (deactivateAll g L).find j = (g.find j).map deactivateNode) := by
  induction L with
  | nil =>
    intro g
    exact ⟨fun _ => rfl, fun h => absurd h (List.not_mem_nil j)⟩
  | cons i L' ih =>
    intro g
    constructor
    · intro hj
      have hji : j ≠ i := fun h => hj (h ▸ List.mem_cons_self i L')
      have hjL : j ∉ L' := fun h => hj (List.mem_cons_of_mem _ h)
      show (deactivateAll (setInactive g i) L').find j = _
      rw [(ih (setInactive g i)).1 hjL, setInactive_find, if_neg hji]
    · intro hj
      show (deactivateAll (setInactive g i) L').find j = _
      by_cases hjL : j ∈ L'
      · rw [(ih (setInactive g i)).2 hjL, setInactive_find]
        by_cases hji : j = i
        · rw [if_pos hji]
          rcases g.find j with _ | v
          · rfl
          · rfl
        · rw [if_neg hji]
      · have hji : j = i := by
          rcases List.mem_cons.mp hj with h | h
          · exact h
          · exact absurd h hjL
        rw [(ih (setInactive g i)).1 hjL, setInactive_find, if_pos hji]

theorem record_entry_pos {schema : List String} {g : Graph} {nd : Node}
    (h : nd.ntype ∈ schema) (links : List (Nat × String)) :
    record_entry schema g nd links =
      (some (freshId g),
       Graph.mk (g.nodes ++ [(freshId g, nd)])
         (g.edges ++ links.filterMap fun l =>
           if g.hasNode l.1 then some (freshId g, l.1, l.2) else none)) := by
  unfold record_entry
  rw [if_pos h]

theorem record_entry_neg {schema : List String} {g : Graph} {nd : Node}
    (h : nd.ntype ∉ schema) (links : List (Nat × String)) :
    record_entry schema g nd links = (none, g) := by
  unfold record_entry
  rw [if_neg h]

theorem extendsAt_refl (t : String × String) (g : Graph) : ExtendsAt t g g :=
  ⟨rfl, fun _ _ => rfl, fun _ h => h⟩

theorem extendsAt_trans {t : String × String} {g1 g2 g3 : Graph}
    (h12 : ExtendsAt t g1 g2) (h23 : ExtendsAt t g2 g3) : ExtendsAt t g1 g3 := by
  refine ⟨?_, ?_, ?_⟩
  · rw [h23.1, h12.1]
  · intro j hj
    rw [h23.2.1 j (h12.2.2 j hj), h12.2.1 j hj]
  · intro j hj
    exact h23.2.2 j (h12.2.2 j hj)

theorem extendsAt_edges (t : String × String) (g : Graph)
    (es : List (Nat × Nat × String)) :
    ExtendsAt t g (Graph.mk g.nodes es) :=
  ⟨rfl, fun _ _ => rfl, fun _ h => h⟩

theorem extendsAt_append (t : String × String) (g : Graph) (entry : Nat × Node)
    (es : List (Nat × Nat × String))
    (h : (isActiveCrystal entry.2 &&
      decide (crystalTopic entry.2 = some t)) = false) :
    ExtendsAt t g (Graph.mk (g.nodes ++ [entry]) es) := by
  refine ⟨?_, ?_, ?_⟩
  · rw [act_append, h]
    simp
  · intro j hj
    exact find_append hj entry es
  · intro j hj
    rw [ids_append]
    exact List.mem_append_left _ hj

/-- `linkConcept` never disturbs existing nodes or the active crystals of any
topic: it only appends a ConceptNode (when one is created) and edges. -/
theorem linkConcept_extendsAt (schema : List String) (g : Graph)
    (fromId : Nat) (name : String) (t : String × String) :
    ExtendsAt t g (linkConcept schema g fromId name) := by
  have hics : (isActiveCrystal (Node.mk "ConceptNode" name none none none) &&
      decide (crystalTopic (Node.mk "ConceptNode" name none none none)
        = some t)) = false := by
    rw [show isActiveCrystal (Node.mk "ConceptNode" name none none none) = false
      from rfl, Bool.false_and]
  unfold linkConcept get_or_create_concept_node
  rcases hfind : get_node_by_attribute g name with _ | p
  · by_cases hs : ("ConceptNode" : String) ∈ schema
    · rw [record_entry_pos hs]
      refine extendsAt_trans (extendsAt_append t g _ _ hics) (extendsAt_edges _ _ _)
    · rw [record_entry_neg hs]
      exact extendsAt_refl t g
  · obtain ⟨pid, pnd⟩ := p
    show ExtendsAt t g
      (let rc := if pnd.ntype = "ConceptNode" then ((some pid : Option Nat), g)
        else record_entry schema g (Node.mk "ConceptNode" name none none none) [];
       match rc.1 with
       | some cid =>
         Graph.mk rc.2.nodes (rc.2.edges ++ [(fromId, cid, "INSIGHT_FROM_CONCEPT")])
       | none => rc.2)
    by_cases hcn : pnd.ntype = "ConceptNode"
    · rw [if_pos hcn]
      exact extendsAt_edges t g _
    · rw [if_neg hcn]
      by_cases hs : ("ConceptNode" : String) ∈ schema
      · rw [record_entry_pos hs]
        refine extendsAt_trans (extendsAt_append t g _ _ hics) (extendsAt_edges _ _ _)
      · rw [record_entry_neg hs]
        exact extendsAt_refl t g

theorem filter_eq_nil_of {α : Type} {p : α → Bool} :
    ∀ {l : List α}, (∀ a ∈ l, p a = false) → l.filter p = [] := by
  intro l
  induction l with
  | nil => intro _; rfl
  | cons a l ih =>
    intro h
    rw [List.filter_cons, h a (List.mem_cons_self a l)]
    simp only [Bool.false_eq_true, if_false]
    exact ih fun b hb => h b (List.mem_cons_of_mem a hb)

/-- Keys of the active-crystal list live among the graph ids. -/
theorem act_keys_sub {g : Graph} {t : String × String} :
    ∀ j ∈ (activeCrystalsFor g t).map Prod.fst, j ∈ g.ids := by
  intro j hj
  rcases List.mem_map.mp hj with ⟨p, hp, rfl⟩
  exact List.mem_map.mpr ⟨p, (mem_activeCrystalsFor hp).1, rfl⟩

/-- Active-crystal key lists of distinct topics are disjoint. -/
theorem keys_disjoint_of_ne {g : Graph} (hnodup : g.ids.Nodup)
    {t1 t2 : String × String} (hne : t1 ≠ t2) :
    ∀ j ∈ (activeCrystalsFor g t1).map Prod.fst,
      j ∉ (activeCrystalsFor g t2).map Prod.fst := by
  intro j hj1 hj2
  rcases List.mem_map.mp hj1 with ⟨p, hp, rfl⟩
  rcases List.mem_map.mp hj2 with ⟨q, hq, hq1⟩
  exact act_keys_disjoint hnodup hne hp hq hq1.symm

/-- Every entry of `topics_to_merge` carries a topic that survives the
`", ".join` → re-parse roundtrip. -/
theorem round_of_mem_ttm {g : Graph}
    {e : (String × String) × List (Nat × Node)} (he : e ∈ topics_to_merge g) :
    parseTopic (e.1.1 ++ ", " ++ e.1.2) = some e.1 := by
  obtain ⟨h2, hlen⟩ := (topics_to_merge_spec g).2.1 e he
  have hne : e.2 ≠ [] := by
    intro h
    rw [h] at hlen
    simp at hlen
  rcases List.exists_mem_of_ne_nil _ hne with ⟨p, hp⟩
  rw [h2] at hp
  exact roundtrip_of_crystalTopic (mem_activeCrystalsFor hp).2.2

/-- A merge step for a topic other than `t` leaves the `t` active crystals
and any node id outside the merged group untouched, and only grows the id
set. -/
theorem mergeStep_foreign (schema : List String)
    (llm : (String × String) → List (Nat × Node) → String)
    {t : String × String} {P : List Nat} {g' : Graph}
    (entry : (String × String) × List (Nat × Node))
    (htne : entry.1 ≠ t)
    (hround : parseTopic (entry.1.1 ++ ", " ++ entry.1.2) = some entry.1)
    (hPin : ∀ j ∈ P, j ∈ g'.ids)
    (hdisP : ∀ j ∈ P, j ∉ entry.2.map Prod.fst)
    (hdisA : ∀ p ∈ activeCrystalsFor g' t, p.1 ∉ entry.2.map Prod.fst) :
    activeCrystalsFor (mergeStep schema llm g' entry) t
        = activeCrystalsFor g' t ∧
    (∀ j ∈ P, (mergeStep schema llm g' entry).find j = g'.find j) ∧
    (∀ j ∈ g'.ids, j ∈ (mergeStep schema llm g' entry).ids) := by
  by_cases hschema : ("KnowledgeCrystalNode" : String) ∈ schema
  · obtain ⟨es0, hstep⟩ : ∃ es0, mergeStep schema llm g' entry =
        deactivateAll
          (linkConcept schema
            (linkConcept schema
              (Graph.mk (g'.nodes ++
                [(freshId g',
                  mergedCrystalNode entry.1 (llm entry.1 entry.2)
                    ((entry.2.map fun p => p.2.strength.getD 1).sum))]) es0)
              (freshId g') entry.1.1)
            (freshId g') entry.1.2)
          (entry.2.map Prod.fst) := by
      refine ⟨g'.edges ++ List.filterMap (fun l =>
        if g'.hasNode l.1 then some (freshId g', l.1, l.2) else none)
        ([] : List (Nat × String)), ?_⟩
      unfold mergeStep
      rw [@record_entry_pos schema g'
        (mergedCrystalNode entry.1 (llm entry.1 entry.2)
          ((entry.2.map fun p => p.2.strength.getD 1).sum)) hschema []]
    have hcond : (isActiveCrystal
        (mergedCrystalNode entry.1 (llm entry.1 entry.2)
          ((entry.2.map fun p => p.2.strength.getD 1).sum)) &&
        decide (crystalTopic
          (mergedCrystalNode entry.1 (llm entry.1 entry.2)
            ((entry.2.map fun p => p.2.strength.getD 1).sum)) = some t))
        = false := by
      rw [crystalTopic_merged entry.1 _ _ hround]
      rw [show (decide ((some entry.1 : Option (String × String)) = some t))
        = false from decide_eq_false fun h => htne (Option.some_inj.mp h)]
      rw [Bool.and_false]
    have hext : ExtendsAt t g'
        (linkConcept schema
          (linkConcept schema
            (Graph.mk (g'.nodes ++
              [(freshId g',
                mergedCrystalNode entry.1 (llm entry.1 entry.2)
                  ((entry.2.map fun p => p.2.strength.getD 1).sum))]) es0)
            (freshId g') entry.1.1)
          (freshId g') entry.1.2) :=
      extendsAt_trans
        (extendsAt_trans (extendsAt_append t g' _ es0 hcond)
          (linkConcept_extendsAt schema _ (freshId g') entry.1.1 t))
        (linkConcept_extendsAt schema _ (freshId g') entry.1.2 t)
    rw [hstep]
    refine ⟨?_, ?_, ?_⟩
    · rw [deactivateAll_act, hext.1]
      apply List.filter_eq_self.mpr
      intro p hp
      simpa using hdisA p hp
    · intro j hj
      rw [(deactivateAll_find (entry.2.map Prod.fst) j _).1 (hdisP j hj)]
      exact hext.2.1 j (hPin j hj)
    · intro j hj
      rw [deactivateAll_ids]
      exact hext.2.2 j hj
  · have hstep : mergeStep schema llm g' entry = g' := by
      unfold mergeStep
      rw [@record_entry_neg schema g'
        (mergedCrystalNode entry.1 (llm entry.1 entry.2)
          ((entry.2.map fun p => p.2.strength.getD 1).sum)) hschema []]
    rw [hstep]
    exact ⟨rfl, fun _ _ => rfl, fun _ h => h⟩

/-- Folding merge steps of foreign topics preserves the `t` active crystals,
the protected ids, and the presence of every existing id. -/
theorem foldl_foreign (schema : List String)
    (llm : (String × String) → List (Nat × Node) → String)
    {t : String × String} {P : List Nat} :
    ∀ (L : List ((String × String) × List (Nat × Node))) (g' : Graph),
      (∀ j ∈ P, j ∈ g'.ids) →
      (∀ e ∈ L, e.1 ≠ t ∧ parseTopic (e.1.1 ++ ", " ++ e.1.2) = some e.1 ∧
        (∀ j ∈ P, j ∉ e.2.map Prod.fst) ∧
        (∀ p ∈ activeCrystalsFor g' t, p.1 ∉ e.2.map Prod.fst)) →
      activeCrystalsFor (L.foldl (mergeStep schema llm) g') t
          = activeCrystalsFor g' t ∧
      (∀ j ∈ P, (L.foldl (mergeStep schema llm) g').find j = g'.find j) ∧
      (∀ j ∈ g'.ids, j ∈ (L.foldl (mergeStep schema llm) g').ids) := by
  intro L
  induction L with
  | nil => exact fun g' _ _ => ⟨rfl, fun _ _ => rfl, fun _ h => h⟩
  | cons e L' ih =>
    intro g' hPin hL
    obtain ⟨h1, h2, h3, h4⟩ := hL e (List.mem_cons_self e L')
    have hstep := mergeStep_foreign schema llm e h1 h2 hPin h3 h4
    have hPin' : ∀ j ∈ P, j ∈ (mergeStep schema llm g' e).ids :=
      fun j hj => hstep.2.2 j (hPin j hj)
    have hL' : ∀ e' ∈ L', e'.1 ≠ t ∧
        parseTopic (e'.1.1 ++ ", " ++ e'.1.2) = some e'.1 ∧
        (∀ j ∈ P, j ∉ e'.2.map Prod.fst) ∧
        (∀ p ∈ activeCrystalsFor (mergeStep schema llm g' e) t,
          p.1 ∉ e'.2.map Prod.fst) := by
      intro e' he'
      obtain ⟨k1, k2, k3, k4⟩ := hL e' (List.mem_cons_of_mem e he')
      refine ⟨k1, k2, k3, ?_⟩
      intro p hp
      rw [hstep.1] at hp
      exact k4 p hp
    obtain ⟨i1, i2, i3⟩ := ih (mergeStep schema llm g' e) hPin' hL'
    refine ⟨?_, ?_, ?_⟩
    · show activeCrystalsFor
        (L'.foldl (mergeStep schema llm) (mergeStep schema llm g' e)) t = _
      rw [i1, hstep.1]
    · intro j hj
      show (L'.foldl (mergeStep schema llm) (mergeStep schema llm g' e)).find j
        = _
      rw [i2 j hj, hstep.2.1 j hj]
    · intro j hj
      exact i3 j (hstep.2.2 j hj)

/-- The merge step at the target topic: the merged crystal becomes the sole
active crystal of the topic, every merged predecessor is rewritten to its
deactivated copy, ids only grow, and the merged crystal's id is fresh. -/
theorem mergeStep_target (schema : List String)
    (llm : (String × String) → List (Nat × Node) → String)
    {gA : Graph} {t : String × String} {grp : List (Nat × Node)}
    (hschema : ("KnowledgeCrystalNode" : String) ∈ schema)
    (hactA : activeCrystalsFor gA t = grp)
    (hround : parseTopic (t.1 ++ ", " ++ t.2) = some t) :
    activeCrystalsFor (mergeStep schema llm gA (t, grp)) t
        = [(freshId gA,
            mergedCrystalNode t (llm t grp)
              ((grp.map fun p => p.2.strength.getD 1).sum))] ∧
    (∀ j ∈ grp.map Prod.fst,
      (mergeStep schema llm gA (t, grp)).find j
        = (gA.find j).map deactivateNode) ∧
    (∀ j ∈ gA.ids, j ∈ (mergeStep schema llm gA (t, grp)).ids) ∧
    freshId gA ∉ gA.ids := by
  have hfresh : freshId gA ∉ gA.ids := freshId_not_mem gA
  have hkeys : ∀ j ∈ grp.map Prod.fst, j ∈ gA.ids := by
    intro j hj
    rw [← hactA] at hj
    exact act_keys_sub j hj
  obtain ⟨es0, hstep⟩ : ∃ es0, mergeStep schema llm gA (t, grp) =
      deactivateAll
        (linkConcept schema
          (linkConcept schema
            (Graph.mk (gA.nodes ++
              [(freshId gA,
                mergedCrystalNode t (llm t grp)
                  ((grp.map fun p => p.2.strength.getD 1).sum))]) es0)
            (freshId gA) t.1)
          (freshId gA) t.2)
        (grp.map Prod.fst) := by
    refine ⟨gA.edges ++ List.filterMap (fun l =>
      if gA.hasNode l.1 then some (freshId gA, l.1, l.2) else none)
      ([] : List (Nat × String)), ?_⟩
    unfold mergeStep
    rw [@record_entry_pos schema gA
      (mergedCrystalNode t (llm t grp)
        ((grp.map fun p => p.2.strength.getD 1).sum)) hschema []]
  have hcond : (isActiveCrystal
      (mergedCrystalNode t (llm t grp)
        ((grp.map fun p => p.2.strength.getD 1).sum)) &&
      decide (crystalTopic
        (mergedCrystalNode t (llm t grp)
          ((grp.map fun p => p.2.strength.getD 1).sum)) = some t)) = true := by
    rw [crystalTopic_merged t _ _ hround]
    simp [isActiveCrystal, mergedCrystalNode]
  have hact0 : activeCrystalsFor
      (Graph.mk (gA.nodes ++
        [(freshId gA,
          mergedCrystalNode t (llm t grp)
            ((grp.map fun p => p.2.strength.getD 1).sum))]) es0) t
      = grp ++ [(freshId gA,
          mergedCrystalNode t (llm t grp)
            ((grp.map fun p => p.2.strength.getD 1).sum))] := by
    rw [act_append, hactA, hcond]
    rfl
  have hext : ExtendsAt t
      (Graph.mk (gA.nodes ++
        [(freshId gA,
          mergedCrystalNode t (llm t grp)
            ((grp.map fun p => p.2.strength.getD 1).sum))]) es0)
      (linkConcept schema
        (linkConcept schema
          (Graph.mk (gA.nodes ++
            [(freshId gA,
              mergedCrystalNode t (llm t grp)
                ((grp.map fun p => p.2.strength.getD 1).sum))]) es0)
          (freshId gA) t.1)
        (freshId gA) t.2) :=
    extendsAt_trans
      (linkConcept_extendsAt schema _ (freshId gA) t.1 t)
      (linkConcept_extendsAt schema _ (freshId gA) t.2 t)
  rw [hstep]
  refine ⟨?_, ?_, ?_, hfresh⟩
  · rw [deactivateAll_act, hext.1, hact0, List.filter_append]
    rw [show (grp.filter fun p => decide (¬ p.1 ∈ grp.map Prod.fst)) = []
      from filter_eq_nil_of fun p hp => by
        simp [List.mem_map.mpr ⟨p, hp, rfl⟩]]
    rw [List.nil_append, List.filter_cons]
    rw [show (decide (¬ ((freshId gA,
        mergedCrystalNode t (llm t grp)
          ((grp.map fun p => p.2.strength.getD 1).sum)) :
        Nat × Node).1 ∈ grp.map Prod.fst)) = true from by
      simp only [decide_eq_true_eq]
      exact fun h => hfresh (hkeys _ h)]
    rfl
  · intro j hj
    rw [(deactivateAll_find (grp.map Prod.fst) j _).2 hj]
    rw [hext.2.1 j (by rw [ids_append]; exact List.mem_append_left _ (hkeys j hj))]
    rw [find_append (hkeys j hj)]
  · intro j hj
    rw [deactivateAll_ids]
    apply hext.2.2
    rw [ids_append]
    exact List.mem_append_left _ hj

end KG

/-- C5: submitting a task whose type has no registered service makes
`execute_single_task` return a FAILURE report synchronously, carrying the
task's `correlation_id` and `source_task_id`, with no entry added to the
pending-report map and no task pushed to any service; the function is total,
so no exception reaches the caller. -/
theorem C5_unrouted_task_local_failure (s : Orch.OrchState) (t : Task)
    (resolved : Report) (hroute : s.routing.lookup t.type = none) :
    (Orch.execute_single_task s t resolved).1.status = "FAILURE" ∧
    (Orch.execute_single_task s t resolved).1.correlation_id = t.correlation_id ∧
    (Orch.execute_single_task s t resolved).1.source_task_id = t.task_id ∧
    (Orch.execute_single_task s t resolved).1.source_task_type = t.type ∧
    (Orch.execute_single_task s t resolved).2.reportFutures = s.reportFutures ∧
    (Orch.execute_single_task s t resolved).2.pushed = s.pushed := by
  have hpres := Orch.record_entry_fields s "TaskNode" t.payload
    [("task_type", t.type), ("task_id", t.task_id),
     ("correlation_id", t.correlation_id)]
    (match t.link_to with | some l => [l] | none => [])
  have hsub : Orch.submit_task (Orch.record_entry s "TaskNode" t.payload
      [("task_type", t.type), ("task_id", t.task_id),
       ("correlation_id", t.correlation_id)]
      (match t.link_to with | some l => [l] | none => [])).2 t =
      (none, (Orch.record_entry s "TaskNode" t.payload
      [("task_type", t.type), ("task_id", t.task_id),
       ("correlation_id", t.correlation_id)]
      (match t.link_to with | some l => [l] | none => [])).2) := by
    unfold Orch.submit_task
    rw [hpres.1, hroute]
  simp only [Orch.execute_single_task]
  rw [hsub]
  simp [hpres.2.1, hpres.2.2.1]

/-- C5 witness: a concrete task with an empty routing table. -/
theorem C5_unrouted_task_local_failure_witness :
    (Orch.execute_single_task
      { routing := [], reportFutures := ["z"], pushed := [], schema := ["TaskNode"],
        nodes := [], edges := [] }
      { type := "no_such_type", payload := "p", correlation_id := "c9", task_id := "t9" }
      { status := "SUCCESS", source_task_type := "x", data := [],
        correlation_id := "c0", source_task_id := "t0" }).1.status = "FAILURE" ∧
    (Orch.execute_single_task
      { routing := [], reportFutures := ["z"], pushed := [], schema := ["TaskNode"],
        nodes := [], edges := [] }
      { type := "no_such_type", payload := "p", correlation_id := "c9", task_id := "t9" }
      { status := "SUCCESS", source_task_type := "x", data := [],
        correlation_id := "c0", source_task_id := "t0" }).1.correlation_id = "c9" ∧
    (Orch.execute_single_task
      { routing := [], reportFutures := ["z"], pushed := [], schema := ["TaskNode"],
        nodes := [], edges := [] }
      { type := "no_such_type", payload := "p", correlation_id := "c9", task_id := "t9" }
      { status := "SUCCESS", source_task_type := "x", data := [],
        correlation_id := "c0", source_task_id := "t0" }).1.source_task_id = "t9" ∧
    (Orch.execute_single_task
      { routing := [], reportFutures := ["z"], pushed := [], schema := ["TaskNode"],
        nodes := [], edges := [] }
      { type := "no_such_type", payload := "p", correlation_id := "c9", task_id := "t9" }
      { status := "SUCCESS", source_task_type := "x", data := [],
        correlation_id := "c0", source_task_id := "t0" }).1.source_task_type = "no_such_type" ∧
    (Orch.execute_single_task
      { routing := [], reportFutures := ["z"], pushed := [], schema := ["TaskNode"],
        nodes := [], edges := [] }
      { type := "no_such_type", payload := "p", correlation_id := "c9", task_id := "t9" }
      { status := "SUCCESS", source_task_type := "x", data := [],
        correlation_id := "c0", source_task_id := "t0" }).2.reportFutures = ["z"] ∧
    (Orch.execute_single_task
      { routing := [], reportFutures := ["z"], pushed := [], schema := ["TaskNode"],
        nodes := [], edges := [] }
      { type := "no_such_type", payload := "p", correlation_id := "c9", task_id := "t9" }
      { status := "SUCCESS", source_task_type := "x", data := [],
        correlation_id := "c0", source_task_id := "t0" }).2.pushed = [] :=
  C5_unrouted_task_local_failure
    { routing := [], reportFutures := ["z"], pushed := [], schema := ["TaskNode"],
      nodes := [], edges := [] }
    { type := "no_such_type", payload := "p", correlation_id := "c9", task_id := "t9" }
    { status := "SUCCESS", source_task_type := "x", data := [],
      correlation_id := "c0", source_task_id := "t0" }
    rfl

/-- C10: `receive_report` records every incoming report as a `ReportNode`
before consulting the pending-future map: a report whose `source_task_id`
matches no pending future resolves nothing and leaves the future map
unchanged, but a `ReportNode` is still appended to the graph. -/
theorem C10_unmatched_report_still_recorded (s : Orch.OrchState) (r : Report)
    (hfut : r.source_task_id ∉ s.reportFutures)
    (hschema : "ReportNode" ∈ s.schema) :
    (Orch.receive_report s r).2 = none ∧
    (Orch.receive_report s r).1.reportFutures = s.reportFutures ∧
    (Orch.receive_report s r).1.nodes =
      s.nodes ++ [(Orch.freshId s,
        ⟨"ReportNode", Orch.serializeData r.data,
         [("service", r.source_task_type), ("status", r.status)]⟩)] := by
  simp only [Orch.receive_report, Orch.record_entry]
  rw [if_pos hschema]
  simp [hfut]

/-- C10 witness: a report with no pending future at a concrete state. -/
theorem C10_unmatched_report_still_recorded_witness :
    (Orch.receive_report
      { routing := [], reportFutures := ["other"], pushed := [],
        schema := ["ReportNode"], nodes := [], edges := [] }
      { status := "SUCCESS", source_task_type := "recall_request", data := [("k", "v")],
        correlation_id := "c", source_task_id := "phantom" }).2 = none ∧
    (Orch.receive_report
      { routing := [], reportFutures := ["other"], pushed := [],
        schema := ["ReportNode"], nodes := [], edges := [] }
      { status := "SUCCESS", source_task_type := "recall_request", data := [("k", "v")],
        correlation_id := "c", source_task_id := "phantom" }).1.reportFutures = ["other"] ∧
    (Orch.receive_report
      { routing := [], reportFutures := ["other"], pushed := [],
        schema := ["ReportNode"], nodes := [], edges := [] }
      { status := "SUCCESS", source_task_type := "recall_request", data := [("k", "v")],
        correlation_id := "c", source_task_id := "phantom" }).1.nodes =
      [] ++ [(Orch.freshId
        { routing := [], reportFutures := ["other"], pushed := [],
          schema := ["ReportNode"], nodes := [], edges := [] },
        ⟨"ReportNode", Orch.serializeData [("k", "v")],
         [("service", "recall_request"), ("status", "SUCCESS")]⟩)] :=
  C10_unmatched_report_still_recorded
    { routing := [], reportFutures := ["other"], pushed := [],
      schema := ["ReportNode"], nodes := [], edges := [] }
    { status := "SUCCESS", source_task_type := "recall_request", data := [("k", "v")],
      correlation_id := "c", source_task_id := "phantom" }
    (by simp) (by simp)

/-- On a failing tokenizer call, `_manage_context` returns the cache
unchanged with no eviction scheduled, whatever the cache holds. -/
theorem Ctx.manage_context_error (impulse : String) (cache : List Ctx.CacheMsg)
    (msg : String) :
    Ctx.manage_context impulse cache (.error msg) = (cache, []) := by
  unfold Ctx.manage_context
  by_cases hc : Str.strip (Ctx.joinLines (cache.map (·.content))) = ""
  · simp [hc]
  · simp [hc]

/-- C7 counterexample: with a conversation cache whose character-count/3
estimate (20001/3 ≈ 6667 tokens) exceeds the safe limit (5734), a failing
tokenizer call makes `_manage_context` return with the cache unchanged and
*no* eviction scheduled — the code logs "aborting cleanup" and skips context
management instead of degrading to the fixed-fraction estimate, refuting the
claim that the token-budget check and any needed eviction are still carried
out. -/
theorem C7_counterexample :
    Ctx.manage_context "hi"
      [⟨"user", String.mk (List.replicate 20000 'a'), some 1⟩,
       ⟨"assistant", "b", some 2⟩] (.error "connection refused") =
      ([⟨"user", String.mk (List.replicate 20000 'a'), some 1⟩,
        ⟨"assistant", "b", some 2⟩], []) ∧
    Ctx.safe_limit <
      ((String.mk (List.replicate 20000 'a')).length
        + ("b" : String).length : ℚ) / 3 := by
  refine ⟨Ctx.manage_context_error _ _ _, ?_⟩
  have h1 : (String.mk (List.replicate 20000 'a')).length = 20000 := by
    show (List.replicate 20000 'a').length = 20000
    exact List.length_replicate 20000 'a'
  have h2 : ("b" : String).length = 1 := rfl
  rw [h1, h2]
  unfold Ctx.safe_limit Ctx.LLM_CONTEXT_LIMIT
  norm_num

/-- C7 (amended): when the tokenizer call raises, `_manage_context` catches
the exception and aborts context management for that impulse — the cache is
returned unchanged and no distillation pair is scheduled (the fixed-fraction
`len/3` estimate is applied only to the incoming impulse text, never as a
fallback for the cache).  No exception propagates into
`handle_user_impulse`. -/
theorem C7_tokenizer_failure_aborts_cleanup (impulse : String)
    (cache : List Ctx.CacheMsg) (msg : String) :
    Ctx.manage_context impulse cache (.error msg) = (cache, []) :=
  Ctx.manage_context_error impulse cache msg

/-! ### Helper lemmas on snapshot coercion -/

namespace Persist

theorem coerceValue_idem (v : AttrValue) :
    coerceValue (coerceValue v) = coerceValue v := by
  cases v <;> rfl

theorem coerceAttrs_idem (attrs : List (String × AttrValue)) :
    coerceAttrs (coerceAttrs attrs) = coerceAttrs attrs := by
  induction attrs with
  | nil => rfl
  | cons kv rest ih =>
    simp only [coerceAttrs, List.map_cons] at ih ⊢
    rw [coerceValue_idem]
    rw [show List.map (fun kv => (kv.1, coerceValue kv.2))
      (List.map (fun kv => (kv.1, coerceValue kv.2)) rest) =
      List.map (fun kv => (kv.1, coerceValue kv.2)) rest from ih]

theorem coerceGraph_idem (g : Graph) :
    coerceGraph (coerceGraph g) = coerceGraph g := by
  cases g with
  | mk ns es =>
    simp only [coerceGraph, List.map_map, Graph.mk.injEq]
    constructor
    · induction ns with
      | nil => rfl
      | cons n rest ih =>
        simp only [List.map_cons, Function.comp, coerceAttrs_idem, List.cons.injEq]
        exact ⟨trivial, ih⟩
    · induction es with
      | nil => rfl
      | cons e rest ih =>
        simp only [List.map_cons, Function.comp, coerceAttrs_idem, List.cons.injEq]
        exact ⟨trivial, ih⟩

end Persist

/-- C3: calling `close()` twice in a row with no mutation in between raises
no error (it is a total function of the store) and the second call persists a
snapshot and chronicle byte-identical to the first call's output — the
attribute string-coercion done by the first `save_snapshot` is a fixed point,
so re-serializing changes nothing, and the second call leaves the store in
the same state. -/
theorem C3_close_idempotent (m : Persist.UniversalMemory) :
    (Persist.close (Persist.close m).1).2 = (Persist.close m).2 ∧
    (Persist.close (Persist.close m).1).1 = (Persist.close m).1 := by
  cases m with
  | mk g ts =>
    simp [Persist.close, Persist.save_snapshot, Persist.coerceGraph_idem]

/-- C8 evaluated at the failing input: the graph already holds a ConceptNode
(id 2) whose content is exactly "цвет", but a UserImpulse node (id 1) with the
same content precedes it in insertion order; `get_node_by_attribute` returns
the UserImpulse, the type guard fails, and `get_or_create_concept_node`
records a *duplicate* ConceptNode (id 3) instead of returning id 2. -/
theorem C8_duplicate_concept_node_created :
    (KG.get_or_create_concept_node ["ConceptNode"]
      ⟨[(1, ⟨"UserImpulse", "цвет", none, none, none⟩),
        (2, ⟨"ConceptNode", "цвет", none, none, none⟩)], []⟩ "цвет").1 = some 3 ∧
    (KG.get_or_create_concept_node ["ConceptNode"]
      ⟨[(1, ⟨"UserImpulse", "цвет", none, none, none⟩),
        (2, ⟨"ConceptNode", "цвет", none, none, none⟩)], []⟩ "цвет").2.nodes =
      [(1, ⟨"UserImpulse", "цвет", none, none, none⟩),
       (2, ⟨"ConceptNode", "цвет", none, none, none⟩),
       (3, ⟨"ConceptNode", "цвет", none, none, none⟩)] := by
  exact ⟨rfl, rfl⟩

/-! ### Helper lemmas for the recall capture pipeline -/

/-- A fold step that preserves a property of all accumulator elements
preserves it across the whole fold. -/
theorem foldl_mem_preserve {α β : Type} (step : List β → α → List β)
    (P : β → Prop)
    (hstep : ∀ acc a, (∀ x ∈ acc, P x) → ∀ x ∈ step acc a, P x) :
    ∀ (l : List α) (acc : List β), (∀ x ∈ acc, P x) →
      ∀ x ∈ List.foldl step acc l, P x := by
  intro l
  induction l with
  | nil => intro acc h; simpa using h
  | cons a rest ih =>
    intro acc h
    simp only [List.foldl_cons]
    exact ih _ (hstep acc a h)

namespace KG

theorem bumpIntersection_allowed (acc : List (Nat × Node × Nat)) (nid : Nat)
    (nd : Node) (h : ∀ x ∈ acc, x.2.1.ntype ∈ ALLOWED_NODE_TYPES_FOR_RECALL)
    (hnd : nd.ntype ∈ ALLOWED_NODE_TYPES_FOR_RECALL) :
    ∀ x ∈ bumpIntersection acc nid nd,
      x.2.1.ntype ∈ ALLOWED_NODE_TYPES_FOR_RECALL := by
  intro x hx
  unfold bumpIntersection at hx
  split at hx
  · rcases List.mem_map.mp hx with ⟨e, he, rfl⟩
    split <;> exact h e he
  · rcases List.mem_append.mp hx with h1 | h2
    · exact h x h1
    · rcases List.mem_singleton.mp h2 with rfl
      exact hnd

theorem conceptual_capture_allowed (g : Graph) (concepts : List String) :
    ∀ x ∈ conceptual_capture g concepts,
      x.2.1.ntype ∈ ALLOWED_NODE_TYPES_FOR_RECALL := by
  unfold conceptual_capture
  refine foldl_mem_preserve _ _ ?_ concepts [] (by simp)
  intro acc cname hacc x hx
  revert hx
  cases hg : get_node_by_attribute g cname with
  | none => intro hx; exact hacc x hx
  | some p =>
    by_cases hcn : p.2.ntype = "ConceptNode"
    · simp only [hcn, if_pos]
      intro hx
      refine foldl_mem_preserve _ _ ?_ (predecessors g p.1) acc hacc x hx
      intro acc2 nid hacc2 y hy
      revert hy
      cases hf : g.find nid with
      | none => intro hy; exact hacc2 y hy
      | some nd =>
        by_cases hal : nd.ntype ∈ ALLOWED_NODE_TYPES_FOR_RECALL
        · simp only [hal, if_pos]
          intro hy
          exact bumpIntersection_allowed acc2 nid nd hacc2 hal y hy
        · simp only [hal, if_neg, if_false]
          intro hy
          exact hacc2 y hy
    · simp only [hcn, if_neg, if_false]
      intro hx
      exact hacc x hx

theorem build_candidate_pool_allowed (g : Graph)
    (conceptual : List (Nat × Node × Nat)) (semantic : List (Nat × ℚ))
    (hc : ∀ x ∈ conceptual, x.2.1.ntype ∈ ALLOWED_NODE_TYPES_FOR_RECALL) :
    ∀ e ∈ build_candidate_pool g conceptual semantic,
      e.ntype ∈ ALLOWED_NODE_TYPES_FOR_RECALL := by
  unfold build_candidate_pool
  refine foldl_mem_preserve _ _ ?_ semantic _ ?_
  · intro pool p hpool e he
    revert he
    split
    · intro he
      rcases List.mem_map.mp he with ⟨x, hx, rfl⟩
      split <;> exact hpool x hx
    · cases hf : g.find p.1 with
      | none => intro he; exact hpool e he
      | some nd =>
        by_cases hal : nd.ntype ∈ ALLOWED_NODE_TYPES_FOR_RECALL
        · simp only [hal, if_pos]
          intro he
          rcases List.mem_append.mp he with h1 | h2
          · exact hpool e h1
          · rcases List.mem_singleton.mp h2 with rfl
            exact hal
        · simp only [hal, if_neg, if_false]
          intro he
          exact hpool e he
  · intro e he
    rcases List.mem_map.mp he with ⟨x, hx, rfl⟩
    exact hc x hx

end KG

namespace Rank

/-- Every entry of the ranked list is a scored copy of a pool entry. -/
theorem mem_rank_candidates {pool : List PoolEntry} {e : RankedEntry}
    (he : e ∈ rank_candidates pool) :
    ∃ p ∈ pool, e = ⟨p.id, p.ntype, score p⟩ := by
  have hperm := Sorting.perm_sortDescBy
    (fun x : RankedEntry => x.relevance_score)
    (pool.map fun p => (⟨p.id, p.ntype, score p⟩ : RankedEntry))
  have hmem : e ∈ pool.map fun p => (⟨p.id, p.ntype, score p⟩ : RankedEntry) :=
    hperm.mem_iff.mp he
  rcases List.mem_map.mp hmem with ⟨p, hp, rfl⟩
  exact ⟨p, hp, rfl⟩

end Rank

/-- C9: every element of `found_nodes` in a `recall_request` report has an
allow-listed node type: conceptual candidates of other types are filtered
out, and semantic hits that do not resolve in the graph or resolve to a type
outside the allow-list are silently dropped from the pool. -/
theorem C9_found_nodes_respect_allow_list (g : KG.Graph)
    (semantic_query : String) (concepts : List String)
    (semantic : List (Nat × ℚ)) :
    ∀ e ∈ KG.recall_found_nodes g semantic_query concepts semantic,
      e.ntype ∈ KG.ALLOWED_NODE_TYPES_FOR_RECALL := by
  intro e he
  unfold KG.recall_found_nodes at he
  split at he
  · simp at he
  · have h1 : e ∈ Rank.rank_candidates
        (KG.build_candidate_pool g (KG.conceptual_capture g concepts) semantic) :=
      List.mem_of_mem_take (List.mem_of_mem_take he)
    rcases Rank.mem_rank_candidates h1 with ⟨p, hp, rfl⟩
    exact KG.build_candidate_pool_allowed g _ semantic
      (KG.conceptual_capture_allowed g concepts) p hp

/-- C9 witness: a concrete graph where a FactNode reached through the concept
"цвет" appears in `found_nodes` with an allow-listed type. -/
theorem C9_found_nodes_respect_allow_list_witness :
    (⟨1, "FactNode", (10 : ℚ)⟩ : Rank.RankedEntry).ntype ∈
      KG.ALLOWED_NODE_TYPES_FOR_RECALL :=
  C9_found_nodes_respect_allow_list
    ⟨[(1, ⟨"FactNode", "любимый цвет — синий", none, none, none⟩),
      (2, ⟨"ConceptNode", "цвет", none, none, none⟩)],
     [(1, 2, "CONTAINS_CONCEPT")]⟩
    "" ["цвет"] []
    ⟨1, "FactNode", (10 : ℚ)⟩
    (by
      have hpool : KG.build_candidate_pool
          ⟨[(1, ⟨"FactNode", "любимый цвет — синий", none, none, none⟩),
            (2, ⟨"ConceptNode", "цвет", none, none, none⟩)],
           [(1, 2, "CONTAINS_CONCEPT")]⟩
          (KG.conceptual_capture
            ⟨[(1, ⟨"FactNode", "любимый цвет — синий", none, none, none⟩),
              (2, ⟨"ConceptNode", "цвет", none, none, none⟩)],
             [(1, 2, "CONTAINS_CONCEPT")]⟩ ["цвет"]) [] =
          [⟨1, "FactNode", 0, 1, false⟩] := rfl
      have hsc : Rank.score ⟨1, "FactNode", 0, 1, false⟩ = 10 := by
        rw [Rank.score_closed]
        norm_num [show ("FactNode" : String) ≠ "UserImpulse" from by decide]
      have hrank : Rank.rank_candidates [⟨1, "FactNode", 0, 1, false⟩] =
          [⟨1, "FactNode", (10 : ℚ)⟩] := by
        simp [Rank.rank_candidates, Sorting.sortDescBy, Sorting.insertDescBy, hsc]
      show (⟨1, "FactNode", (10 : ℚ)⟩ : Rank.RankedEntry) ∈
        KG.recall_found_nodes _ "" ["цвет"] []
      unfold KG.recall_found_nodes
      rw [if_neg (by decide)]
      unfold Rank.foundNodesFromPool
      rw [hpool, hrank]
      rw [List.take_of_length_le (by
        norm_num [show Rank.recall_limit = 30 from rfl,
          show Rank.final_top_n = 5 from rfl])]
      rw [List.take_of_length_le (by
        norm_num [show Rank.recall_limit = 30 from rfl,
          show Rank.final_top_n = 5 from rfl])]
      exact List.mem_singleton.mpr rfl)

/-- C6 counterexample: two candidates with identical conceptual and
associative contributions where the one with the *higher* semantic score
(a UserImpulse, damped by 0.7) ranks strictly *below* the other, refuting the
claim as stated: pool = [A: UserImpulse, semantic 1, conceptual 0;
B: FactNode, semantic 9/10, conceptual 0] ranks B (score 13.5) above
A (score 10.5). -/
theorem C6_counterexample :
    (let pA : Rank.PoolEntry := ⟨1, "UserImpulse", 1, 0, false⟩
     let pB : Rank.PoolEntry := ⟨2, "FactNode", 9/10, 0, false⟩
     pA.conceptual = pB.conceptual ∧ pA.associative = pB.associative ∧
     pB.semantic < pA.semantic ∧
     Rank.rank_candidates [pA, pB] =
       [⟨2, "FactNode", 27/2⟩, ⟨1, "UserImpulse", 21/2⟩]) := by
  refine ⟨rfl, rfl, by norm_num, ?_⟩
  have h1 : Rank.score ⟨1, "UserImpulse", 1, 0, false⟩ = 21/2 := by
    rw [Rank.score_closed]; norm_num
  have h2 : Rank.score ⟨2, "FactNode", 9/10, 0, false⟩ = 27/2 := by
    rw [Rank.score_closed]
    norm_num [show ("FactNode" : String) ≠ "UserImpulse" from by decide]
  simp only [Rank.rank_candidates, List.map, h1, h2,
    Sorting.sortDescBy, Sorting.insertDescBy]
  norm_num

/-- C6 (amended): for two recall candidates with identical conceptual and
associative contributions *and the same UserImpulse damping*, the one with the
strictly higher semantic similarity scores strictly higher and is placed at a
strictly smaller index by `_rank_candidates`.  (The amendment — requiring the
damping to agree — is forced by the 0.7 UserImpulse multiplier, see the
counterexample.) -/
theorem C6_ranking_monotonicity (pool : List Rank.PoolEntry)
    (pA pB : Rank.PoolEntry) (hA : pA ∈ pool) (hB : pB ∈ pool)
    (hc : pA.conceptual = pB.conceptual) (ha : pA.associative = pB.associative)
    (ht : (pA.ntype = "UserImpulse") ↔ (pB.ntype = "UserImpulse"))
    (hs : pB.semantic < pA.semantic) :
    Rank.score pB < Rank.score pA ∧
    ∀ (i j : Nat) (eA eB : Rank.RankedEntry),
      (Rank.rank_candidates pool)[i]? = some eA →
      (Rank.rank_candidates pool)[j]? = some eB →
      eA = ⟨pA.id, pA.ntype, Rank.score pA⟩ →
      eB = ⟨pB.id, pB.ntype, Rank.score pB⟩ →
      i < j := by
  have hmono := Rank.score_strict_mono hc ha ht hs
  refine ⟨hmono, ?_⟩
  intro i j eA eB hiA hjB heA heB
  subst heA; subst heB
  exact Sorting.sorted_desc_index_lt _ (Rank.rank_candidates_sorted pool) hiA hjB hmono

/-- C6 witness: the amended monotonicity at a concrete two-candidate pool. -/
theorem C6_ranking_monotonicity_witness :
    Rank.score ⟨2, "FactNode", 1/2, 3, false⟩ <
      Rank.score ⟨1, "FactNode", 1, 3, false⟩ ∧
    ∀ (i j : Nat) (eA eB : Rank.RankedEntry),
      (Rank.rank_candidates [⟨1, "FactNode", 1, 3, false⟩,
        ⟨2, "FactNode", 1/2, 3, false⟩])[i]? = some eA →
      (Rank.rank_candidates [⟨1, "FactNode", 1, 3, false⟩,
        ⟨2, "FactNode", 1/2, 3, false⟩])[j]? = some eB →
      eA = ⟨1, "FactNode", Rank.score ⟨1, "FactNode", 1, 3, false⟩⟩ →
      eB = ⟨2, "FactNode", Rank.score ⟨2, "FactNode", 1/2, 3, false⟩⟩ →
      i < j :=
  C6_ranking_monotonicity
    [⟨1, "FactNode", 1, 3, false⟩, ⟨2, "FactNode", 1/2, 3, false⟩]
    ⟨1, "FactNode", 1, 3, false⟩ ⟨2, "FactNode", 1/2, 3, false⟩
    (by simp) (by simp) rfl rfl Iff.rfl (by norm_num)

/-- C1: for every task handed to the service framework's task wrapper, exactly
one report reaches `receive_report`; it carries the task's `task_id` as
`source_task_id`; a report returned by `handle_task` is delivered verbatim;
a `None` return or an exception is converted into a synthesized FAILURE
report, the latter carrying the error text. -/
theorem C1_task_report_pairing (task : Task) (outcome : Svc.HandlerOutcome)
    (hok : ∀ r, outcome = .ok r → r.source_task_id = task.task_id) :
    (Svc.process_task_wrapper task outcome).length = 1 ∧
    ∀ r ∈ Svc.process_task_wrapper task outcome,
      r.source_task_id = task.task_id ∧
      (∀ r0, outcome = .ok r0 → r = r0) ∧
      (outcome = .noReport → r.status = "FAILURE") ∧
      (∀ msg, outcome = .exc msg → r.status = "FAILURE" ∧ ("error", msg) ∈ r.data) := by
  cases outcome with
  | ok r0 =>
    refine ⟨rfl, ?_⟩
    intro r hr
    simp [Svc.process_task_wrapper] at hr
    subst hr
    refine ⟨hok r rfl, ?_, ?_, ?_⟩
    · intro r1 h
      cases h
      rfl
    · intro h; cases h
    · intro msg h; cases h
  | noReport =>
    refine ⟨rfl, ?_⟩
    intro r hr
    simp [Svc.process_task_wrapper] at hr
    subst hr
    refine ⟨rfl, ?_, fun _ => rfl, ?_⟩
    · intro r1 h; cases h
    · intro msg h; cases h
  | exc m =>
    refine ⟨rfl, ?_⟩
    intro r hr
    simp [Svc.process_task_wrapper] at hr
    subst hr
    refine ⟨rfl, ?_, ?_, ?_⟩
    · intro r1 h; cases h
    · intro h; cases h
    · intro msg h
      cases h
      exact ⟨rfl, by simp [Svc.excFailureReport]⟩

/-- C1 witness: the wrapper at a concrete task whose handler raised "boom". -/
theorem C1_task_report_pairing_witness :
    (Svc.process_task_wrapper
        { type := "recall_request", payload := "p", correlation_id := "c1", task_id := "t1" }
        (.exc "boom")).length = 1 ∧
    ∀ r ∈ Svc.process_task_wrapper
        { type := "recall_request", payload := "p", correlation_id := "c1", task_id := "t1" }
        (.exc "boom"),
      r.source_task_id = "t1" ∧
      (∀ r0, (Svc.HandlerOutcome.exc "boom") = .ok r0 → r = r0) ∧
      ((Svc.HandlerOutcome.exc "boom") = .noReport → r.status = "FAILURE") ∧
      (∀ msg, (Svc.HandlerOutcome.exc "boom") = .exc msg →
        r.status = "FAILURE" ∧ ("error", msg) ∈ r.data) :=
  C1_task_report_pairing
    { type := "recall_request", payload := "p", correlation_id := "c1", task_id := "t1" }
    (.exc "boom")
    (by intro r h; cases h)

/-- C4: after one `_synthesize_insights_within_clusters` run over a graph
with unique node ids and a schema admitting KnowledgeCrystalNodes, every
topic that had at least two active KnowledgeCrystalNodes before the run has
exactly one active KnowledgeCrystalNode afterwards — a new node (fresh id)
whose `strength` is the sum of the merged insights' strengths — and every
merged predecessor still exists in the graph, rewritten to its deactivated
copy with `active_status = 0` (superseded, never deleted). -/
theorem C4_topic_merge (schema : List String)
    (llm : (String × String) → List (Nat × KG.Node) → String)
    (g : KG.Graph) (t : String × String)
    (hnodup : g.ids.Nodup)
    (hschema : "KnowledgeCrystalNode" ∈ schema)
    (hact : 2 ≤ (KG.activeCrystalsFor g t).length) :
    ∃ newId : Nat, ∃ newNode : KG.Node,
      newId ∉ g.ids ∧
      KG.activeCrystalsFor
          (KG.synthesize_insights_within_clusters schema llm g) t
        = [(newId, newNode)] ∧
      newNode.ntype = "KnowledgeCrystalNode" ∧
      newNode.active_status = some 1 ∧
      newNode.strength = some ((KG.activeCrystalsFor g t).map fun p =>
        p.2.strength.getD 1).sum ∧
      ∀ p ∈ KG.activeCrystalsFor g t,
        (KG.synthesize_insights_within_clusters schema llm g).find p.1
            = some (KG.deactivateNode p.2) ∧
        (KG.deactivateNode p.2).active_status = some 0 := by
  have hspec := KG.topics_to_merge_spec g
  have hmem : (t, KG.activeCrystalsFor g t) ∈ KG.topics_to_merge g :=
    hspec.2.2 t hact
  have hroundT : KG.parseTopic (t.1 ++ ", " ++ t.2) = some t :=
    KG.round_of_mem_ttm hmem
  rcases List.append_of_mem hmem with ⟨L1, L2, hsplit⟩
  have hsub1 : ∀ e ∈ L1, e ∈ KG.topics_to_merge g := by
    intro e he
    rw [hsplit]
    exact List.mem_append_left _ he
  have hsub2 : ∀ e ∈ L2, e ∈ KG.topics_to_merge g := by
    intro e he
    rw [hsplit]
    exact List.mem_append_right _ (List.mem_cons_of_mem _ he)
  have hnk := hspec.1
  rw [hsplit, List.map_append, List.map_cons] at hnk
  have hnd := List.nodup_append.mp hnk
  have hne1 : ∀ e ∈ L1, e.1 ≠ t := by
    intro e he heq
    exact hnd.2.2 (List.mem_map.mpr ⟨e, he, heq⟩)
      (List.mem_cons.mpr (Or.inl rfl))
  have hne2 : ∀ e ∈ L2, e.1 ≠ t := by
    intro e he heq
    exact (List.nodup_cons.mp hnd.2.1).1 (List.mem_map.mpr ⟨e, he, heq⟩)
  have hforeign : ∀ e ∈ KG.topics_to_merge g, e.1 ≠ t →
      ∀ j ∈ (KG.activeCrystalsFor g t).map Prod.fst,
        j ∉ e.2.map Prod.fst := by
    intro e he hnet j hj
    have h2 := (hspec.2.1 e he).1
    rw [h2]
    exact KG.keys_disjoint_of_ne hnodup (fun hh => hnet hh.symm) j hj
  have hPinA : ∀ j ∈ (KG.activeCrystalsFor g t).map Prod.fst, j ∈ g.ids :=
    fun j hj => KG.act_keys_sub j hj
  have hLA : ∀ e ∈ L1, e.1 ≠ t ∧
      KG.parseTopic (e.1.1 ++ ", " ++ e.1.2) = some e.1 ∧
      (∀ j ∈ (KG.activeCrystalsFor g t).map Prod.fst,
        j ∉ e.2.map Prod.fst) ∧
      (∀ p ∈ KG.activeCrystalsFor g t, p.1 ∉ e.2.map Prod.fst) := by
    intro e he
    have hm := hsub1 e he
    refine ⟨hne1 e he, KG.round_of_mem_ttm hm,
      hforeign e hm (hne1 e he), ?_⟩
    intro p hp
    exact hforeign e hm (hne1 e he) p.1 (List.mem_map.mpr ⟨p, hp, rfl⟩)
  obtain ⟨hA1, hA2, hA3⟩ := @KG.foldl_foreign schema llm t
    ((KG.activeCrystalsFor g t).map Prod.fst) L1 g hPinA hLA
  have hB := KG.mergeStep_target schema llm hschema hA1 hroundT
  have hPinC : ∀ j ∈ (KG.activeCrystalsFor g t).map Prod.fst,
      j ∈ (KG.mergeStep schema llm (L1.foldl (KG.mergeStep schema llm) g)
        (t, KG.activeCrystalsFor g t)).ids :=
    fun j hj => hB.2.2.1 j (hA3 j (hPinA j hj))
  have hLC : ∀ e ∈ L2, e.1 ≠ t ∧
      KG.parseTopic (e.1.1 ++ ", " ++ e.1.2) = some e.1 ∧
      (∀ j ∈ (KG.activeCrystalsFor g t).map Prod.fst,
        j ∉ e.2.map Prod.fst) ∧
      (∀ p ∈ KG.activeCrystalsFor
          (KG.mergeStep schema llm (L1.foldl (KG.mergeStep schema llm) g)
            (t, KG.activeCrystalsFor g t)) t,
        p.1 ∉ e.2.map Prod.fst) := by
    intro e he
    have hm := hsub2 e he
    refine ⟨hne2 e he, KG.round_of_mem_ttm hm,
      hforeign e hm (hne2 e he), ?_⟩
    intro p hp hmemk
    rw [hB.1] at hp
    have h2 := (hspec.2.1 e hm).1
    rw [h2] at hmemk
    have hgid : p.1 ∈ g.ids := KG.act_keys_sub p.1 hmemk
    have hp1 : p = (KG.freshId (L1.foldl (KG.mergeStep schema llm) g),
        KG.mergedCrystalNode t (llm t (KG.activeCrystalsFor g t))
          (((KG.activeCrystalsFor g t).map fun q =>
            q.2.strength.getD 1).sum)) :=
      List.mem_singleton.mp hp
    rw [hp1] at hgid
    exact hB.2.2.2 (hA3 _ hgid)
  obtain ⟨hC1, hC2, hC3⟩ := @KG.foldl_foreign schema llm t
    ((KG.activeCrystalsFor g t).map Prod.fst) L2
    (KG.mergeStep schema llm (L1.foldl (KG.mergeStep schema llm) g)
      (t, KG.activeCrystalsFor g t)) hPinC hLC
  have hfold : KG.synthesize_insights_within_clusters schema llm g =
      L2.foldl (KG.mergeStep schema llm)
        (KG.mergeStep schema llm (L1.foldl (KG.mergeStep schema llm) g)
          (t, KG.activeCrystalsFor g t)) := by
    unfold KG.synthesize_insights_within_clusters
    rw [hsplit, List.foldl_append, List.foldl_cons]
  refine ⟨KG.freshId (L1.foldl (KG.mergeStep schema llm) g),
    KG.mergedCrystalNode t (llm t (KG.activeCrystalsFor g t))
      (((KG.activeCrystalsFor g t).map fun p =>
        (p.2.strength.getD 1 : Int)).sum),
    ?_, ?_, ?_, ?_, ?_, ?_⟩
  · intro h
    exact hB.2.2.2 (hA3 _ h)
  · rw [hfold, hC1, hB.1]
  · rfl
  · rfl
  · rfl
  · intro p hp
    constructor
    · rw [hfold]
      rw [hC2 p.1 (List.mem_map.mpr ⟨p, hp, rfl⟩)]
      rw [hB.2.1 p.1 (List.mem_map.mpr ⟨p, hp, rfl⟩)]
      rw [hA2 p.1 (List.mem_map.mpr ⟨p, hp, rfl⟩)]
      rw [KG.act_find hnodup hp]
      rfl
    · rfl

/-- C4 witness: a graph holding exactly two active KnowledgeCrystalNodes for
topic `("a", "b")` with strength 1 each; after reflection one new active
crystal of strength 2 remains and both originals are deactivated in place. -/
theorem C4_topic_merge_witness :
    ((KG.Graph.mk
        [(1, KG.Node.mk "KnowledgeCrystalNode" "i1" (some "a, b")
            (some 1) (some 1)),
         (2, KG.Node.mk "KnowledgeCrystalNode" "i2" (some "a, b")
            (some 1) (some 1))] []).ids.Nodup ∧
      "KnowledgeCrystalNode" ∈ ["KnowledgeCrystalNode"] ∧
      2 ≤ (KG.activeCrystalsFor
        (KG.Graph.mk
          [(1, KG.Node.mk "KnowledgeCrystalNode" "i1" (some "a, b")
              (some 1) (some 1)),
           (2, KG.Node.mk "KnowledgeCrystalNode" "i2" (some "a, b")
              (some 1) (some 1))] []) ("a", "b")).length) ∧
    (∃ newId : Nat, ∃ newNode : KG.Node,
      newId ∉ (KG.Graph.mk
        [(1, KG.Node.mk "KnowledgeCrystalNode" "i1" (some "a, b")
            (some 1) (some 1)),
         (2, KG.Node.mk "KnowledgeCrystalNode" "i2" (some "a, b")
            (some 1) (some 1))] []).ids ∧
      KG.activeCrystalsFor
          (KG.synthesize_insights_within_clusters ["KnowledgeCrystalNode"]
            (fun _ _ => "merged")
            (KG.Graph.mk
              [(1, KG.Node.mk "KnowledgeCrystalNode" "i1" (some "a, b")
                  (some 1) (some 1)),
               (2, KG.Node.mk "KnowledgeCrystalNode" "i2" (some "a, b")
                  (some 1) (some 1))] [])) ("a", "b")
        = [(newId, newNode)] ∧
      newNode.ntype = "KnowledgeCrystalNode" ∧
      newNode.active_status = some 1 ∧
      newNode.strength = some ((KG.activeCrystalsFor
        (KG.Graph.mk
          [(1, KG.Node.mk "KnowledgeCrystalNode" "i1" (some "a, b")
              (some 1) (some 1)),
           (2, KG.Node.mk "KnowledgeCrystalNode" "i2" (some "a, b")
              (some 1) (some 1))] []) ("a", "b")).map fun p =>
        p.2.strength.getD 1).sum ∧
      ∀ p ∈ KG.activeCrystalsFor
          (KG.Graph.mk
            [(1, KG.Node.mk "KnowledgeCrystalNode" "i1" (some "a, b")
                (some 1) (some 1)),
             (2, KG.Node.mk "KnowledgeCrystalNode" "i2" (some "a, b")
                (some 1) (some 1))] []) ("a", "b"),
        (KG.synthesize_insights_within_clusters ["KnowledgeCrystalNode"]
            (fun _ _ => "merged")
            (KG.Graph.mk
              [(1, KG.Node.mk "KnowledgeCrystalNode" "i1" (some "a, b")
                  (some 1) (some 1)),
               (2, KG.Node.mk "KnowledgeCrystalNode" "i2" (some "a, b")
                  (some 1) (some 1))] [])).find p.1
            = some (KG.deactivateNode p.2) ∧
        (KG.deactivateNode p.2).active_status = some 0) :=
  ⟨⟨by decide, by decide, by decide⟩,
    C4_topic_merge ["KnowledgeCrystalNode"] (fun _ _ => "merged")
      (KG.Graph.mk
        [(1, KG.Node.mk "KnowledgeCrystalNode" "i1" (some "a, b")
            (some 1) (some 1)),
         (2, KG.Node.mk "KnowledgeCrystalNode" "i2" (some "a, b")
            (some 1) (some 1))] []) ("a", "b")
      (by decide) (by decide) (by decide)⟩

end Thea
